import Mathlib

/-!
Course-catalog chatbot: retrieval and tool-calling dialogue.

A shallow embedding of `chat.go`, `embeddings.go` and `db.go`.

* Go strings are Lean strings (sequences of Unicode scalars).
* The process state reachable from `*DB` is a `World`: the rows of the `course`
  table, the dialogue, the two ingestion maps, what was printed, and the trace of
  calls made to the outside (language model, embedding endpoint, SQL engine).
* The outside is an `Env` of oracles.  Every oracle sees the trace of the calls
  made before it, so two identical requests may be answered differently.
* A Go function that can stop the process returns a `Res`: `ok`, `fatal`
  (`log.Fatal`) or `panic` (run-time panic); the world at that point is kept.
* Library code is modelled as far as the program depends on it: `strings.TrimSpace`,
  `strings.Join`, `json.Unmarshal` into a `map[string]interface{}` (a JSON reader with
  the checks of `encoding/json`), the field-count check of `csv.Reader.Read` (the file
  is given as its lexed records), and the nearest-neighbour `SELECT` of `Query` (the
  table sorted by distance, cut after three rows; the distance itself is an oracle).
-/

namespace CourseCatalog

/-! ## Data model -/

/-- A float32 vector; every component is given by its IEEE-754 bit pattern. -/
abbrev Embedding := List Nat

/-- A byte string, as stored in the `embedding` column. -/
abbrev Blob := List Nat

/-- The struct `Course` of db.go. -/
structure Course where
  Subj : String
  Number : String
  Section : String
  Title : String
  Instructor : String
  Email : String
  Days : String
  StartTime : String
  EndTime : String
  Building : String
  Room : String
deriving DecidableEq, Repr

/-- The struct `openai.FunctionCall`. -/
structure FunctionCall where
  Name : String
  Arguments : String
deriving DecidableEq, Repr

/-- The struct `openai.ToolCall` (fields read by the program). -/
structure ToolCall where
  ID : String
  Function : FunctionCall
deriving DecidableEq, Repr

/-- The struct `openai.ChatCompletionMessage` (fields read or written by the program). -/
structure ChatCompletionMessage where
  Role : String
  Content : String
  Name : String
  ToolCalls : List ToolCall
  ToolCallID : String
deriving DecidableEq, Repr

def ChatMessageRoleSystem : String := "system"
def ChatMessageRoleUser : String := "user"
def ChatMessageRoleAssistant : String := "assistant"
def ChatMessageRoleTool : String := "tool"

/-- One property of a `jsonschema.Definition`. -/
structure PropertyDefinition where
  Type_ : String
  Description : String
deriving DecidableEq, Repr

/-- The struct `jsonschema.Definition`, one level deep. -/
structure Definition where
  Type_ : String
  Properties : List (String × PropertyDefinition)
  Required : List String
deriving DecidableEq, Repr

/-- The struct `openai.FunctionDefinition`. -/
structure FunctionDefinition where
  Name : String
  Description : String
  Parameters : Definition
deriving DecidableEq, Repr

/-- The struct `openai.Tool`. -/
structure Tool where
  Type_ : String
  Function : FunctionDefinition
deriving DecidableEq, Repr

/-- The struct `openai.ChatCompletionRequest` (fields set by the program). -/
structure ChatCompletionRequest where
  Model : String
  Messages : List ChatCompletionMessage
  Tools : List Tool
deriving DecidableEq, Repr

/-- The struct `openai.ChatCompletionChoice`. -/
structure ChatCompletionChoice where
  Message : ChatCompletionMessage
deriving DecidableEq, Repr

/-- The struct `openai.Usage`. -/
structure Usage where
  TotalTokens : Int
deriving DecidableEq, Repr

/-- The struct `openai.ChatCompletionResponse`. -/
structure ChatCompletionResponse where
  Choices : List ChatCompletionChoice
  Usage : Usage
deriving DecidableEq, Repr

/-- The struct `openai.EmbeddingRequest`. -/
structure EmbeddingRequest where
  Input : List String
  Model : String
deriving DecidableEq, Repr

def LargeEmbedding3 : String := "text-embedding-3-large"

/-- One row of the virtual table `course (id, plain, embedding)`. -/
structure Row where
  id : Nat
  plain : String
  embedding : Blob
deriving DecidableEq, Repr

/-- A call made to the outside of the process. -/
inductive Event where
  | chatCompletion (req : ChatCompletionRequest)
  | embeddings (req : EmbeddingRequest)
  | sqlQuery (b : Blob)
  | sqlExec (rowid : Nat) (p : String) (b : Blob)
deriving DecidableEq, Repr

/-- The state reachable from a `*DB`, with the output and the trace of outside calls. -/
structure World where
  rows : List Row
  dialogue : List ChatCompletionMessage
  instructorMap : List (String × List Course)
  subjectMap : List (String × List Course)
  stdout : List String
  trace : List Event
deriving DecidableEq, Repr

/-- The outside: language model, embedding endpoint, vector serialisation and SQL engine.
The first argument of an oracle is the trace of the calls made before. `distance` is the
`distance` column the engine computes for a stored vector and the query vector, as a
number that orders like the float32 value; `execError` and `queryError` tell whether an
`INSERT` or the `SELECT` is refused. -/
structure Env where
  CreateChatCompletion : List Event → ChatCompletionRequest → Except String ChatCompletionResponse
  CreateEmbeddings : List Event → EmbeddingRequest → Except String (List Embedding)
  SerializeFloat32 : Embedding → Except String Blob
  distance : Blob → Blob → Nat
  execError : List Event → Nat → String → Blob → Option String
  queryError : List Event → Blob → Option String

/-- Outcome of a Go function in a world: normal return, `log.Fatal`, or a run-time panic. -/
inductive Res (α : Type) where
  | ok (val : α) (w : World)
  | fatal (msg : String) (w : World)
  | panic (msg : String) (w : World)
deriving DecidableEq, Repr

/-- The world in which an outcome was reached. -/
def Res.world {α : Type} : Res α → World
  | .ok _ w => w
  | .fatal _ w => w
  | .panic _ w => w

/-- Whether the function returned to its caller. -/
def Res.returned {α : Type} : Res α → Bool
  | .ok _ _ => true
  | _ => false

/-! ## Go library functions used by the program -/

/-- The predicate `unicode.IsSpace`. -/
def unicodeIsSpace (c : Char) : Bool :=
  let n := c.toNat
  (9 ≤ n && n ≤ 13) || n == 0x20 || n == 0x85 || n == 0xA0 || n == 0x1680 ||
    (0x2000 ≤ n && n ≤ 0x200A) || n == 0x2028 || n == 0x2029 || n == 0x202F ||
    n == 0x205F || n == 0x3000

/-- The function `strings.TrimSpace`: leading and trailing white space removed. -/
def TrimSpace (s : String) : String :=
  String.mk ((s.data.dropWhile unicodeIsSpace).reverse.dropWhile unicodeIsSpace).reverse

/-- The function `strings.Join`. -/
def Join (elems : List String) (sep : String) : String :=
  sep.intercalate elems

/-- A decoded JSON value: what `encoding/json` stores into an `interface{}`. Numbers keep
their literal, as their value is never read. -/
inductive Json where
  | null
  | bool (b : Bool)
  | num (lit : String)
  | str (s : String)
  | arr (xs : List Json)
  | obj (kvs : List (String × Json))

def isJsonSpace (c : Char) : Bool :=
  c == ' ' || c == '\t' || c == '\r' || c == '\n'

def skipWs (cs : List Char) : List Char :=
  cs.dropWhile isJsonSpace

def hexVal (c : Char) : Option Nat :=
  let n := c.toNat
  if 48 ≤ n ∧ n ≤ 57 then some (n - 48)
  else if 97 ≤ n ∧ n ≤ 102 then some (n - 87)
  else if 65 ≤ n ∧ n ≤ 70 then some (n - 55)
  else none

def hex4 (a b c d : Char) : Option Nat :=
  match hexVal a, hexVal b, hexVal c, hexVal d with
  | some x, some y, some z, some t => some (((x * 16 + y) * 16 + z) * 16 + t)
  | _, _, _, _ => none

/-- The character a one-letter escape stands for. -/
def unescape (e : Char) : Option Char :=
  if e == '"' then some '"'
  else if e == '\\' then some '\\'
  else if e == '/' then some '/'
  else if e == 'b' then some (Char.ofNat 8)
  else if e == 'f' then some (Char.ofNat 12)
  else if e == 'n' then some '\n'
  else if e == 'r' then some '\r'
  else if e == 't' then some '\t'
  else none

def replacementChar : Char := Char.ofNat 0xFFFD

/-- What a `\uXXXX` escape with value `n` contributes, given the text after it: the
decoded character and how many further characters (a low surrogate escape) it uses up. -/
def decodeU (n : Nat) (rest : List Char) : Char × Nat :=
  if 0xD800 ≤ n ∧ n < 0xE000 then
    match rest with
    | '\\' :: 'u' :: a :: b :: c :: d :: _ =>
      match hex4 a b c d with
      | some m =>
        if n < 0xDC00 ∧ 0xDC00 ≤ m ∧ m < 0xE000 then
          (Char.ofNat ((n - 0xD800) * 1024 + (m - 0xDC00) + 0x10000), 6)
        else (replacementChar, 0)
      | none => (replacementChar, 0)
    | _ => (replacementChar, 0)
  else (Char.ofNat n, 0)

/-- A string literal, read from just after its opening quote. The fuel bounds the number
of steps, one per character or escape. -/
def scanString : Nat → List Char → List Char → Option (String × List Char)
  | 0, _, _ => none
  | _ + 1, [], _ => none
  | fuel + 1, c :: rest, acc =>
    if c == '"' then some (String.mk acc.reverse, rest)
    else if c == '\\' then
      match rest with
      | [] => none
      | e :: rest1 =>
        if e == 'u' then
          match rest1 with
          | a :: b :: c1 :: d :: rest2 =>
            match hex4 a b c1 d with
            | some n =>
              let r := decodeU n rest2
              scanString fuel (rest2.drop r.2) (r.1 :: acc)
            | none => none
          | _ => none
        else
          match unescape e with
          | some x => scanString fuel rest1 (x :: acc)
          | none => none
    else if c.toNat < 0x20 then none
    else scanString fuel rest (c :: acc)

/-- The threshold from which `strconv.ParseFloat(s, 64)` reports a range error:
half an ulp above the largest float64. -/
def float64Limit : Nat := 2 ^ 1024 - 2 ^ 970

/-- Whether the decimal `m * 10 ^ e` is out of the float64 range. -/
def float64Overflows (m : Nat) (e : Int) : Bool :=
  if 0 ≤ e then decide (float64Limit ≤ m * 10 ^ e.toNat)
  else decide (float64Limit * 10 ^ (-e).toNat ≤ m)

def digitsVal (ds : List Char) : Nat :=
  ds.foldl (fun n c => n * 10 + (c.toNat - 48)) 0

/-- A number literal: `-? (0 | [1-9][0-9]*) (. [0-9]+)? ([eE] [+-]? [0-9]+)?`. Returns the
literal and the rest, or nothing when the text is no number or exceeds the float64 range. -/
def scanNumber (cs : List Char) : Option (String × List Char) :=
  let sign := cs.takeWhile (fun c => c == '-')
  let cs1 := cs.dropWhile (fun c => c == '-')
  let ip := cs1.takeWhile Char.isDigit
  let cs2 := cs1.dropWhile Char.isDigit
  if 1 < sign.length ∨ ip = [] ∨ (1 < ip.length ∧ ip.head? = some '0') then none
  else
    let hasFrac := cs2.head? = some '.'
    let fp := if hasFrac then (cs2.drop 1).takeWhile Char.isDigit else []
    let cs3 := if hasFrac then (cs2.drop 1).dropWhile Char.isDigit else cs2
    if hasFrac ∧ fp = [] then none
    else
      let hasExp := cs3.head? = some 'e' ∨ cs3.head? = some 'E'
      let cs4 := if hasExp then cs3.drop 1 else cs3
      let esign := if hasExp ∧ (cs4.head? = some '+' ∨ cs4.head? = some '-') then cs4.take 1 else []
      let cs5 := cs4.drop esign.length
      let ep := if hasExp then cs5.takeWhile Char.isDigit else []
      let cs6 := if hasExp then cs5.dropWhile Char.isDigit else cs3
      if hasExp ∧ ep = [] then none
      else
        let ev : Int := if esign = ['-'] then - (digitsVal ep : Int) else (digitsVal ep : Int)
        if float64Overflows (digitsVal (ip ++ fp)) (ev - (fp.length : Int)) then none
        else some (String.mk (cs.take (cs.length - cs6.length)), cs6)

/-- What the value parser is asked to read next. -/
inductive Goal where
  | value
  | elemsTail (acc : List Json)
  | member (acc : List (String × Json))
  | membersTail (acc : List (String × Json))

/-- The nesting limit of the `encoding/json` scanner. -/
def maxNestingDepth : Nat := 10000

def stripLit (lit : String) (cs : List Char) : Option (List Char) :=
  if lit.data <+: cs then some (cs.drop lit.length) else none

/-- A JSON value (or the rest of an array or object) at the head of the text, with the
text left over. Every recursive call reads a shorter text, so `cs.length + 1` fuel is
enough. -/
def parseJson : Nat → Nat → Goal → List Char → Option (Json × List Char)
  | 0, _, _, _ => none
  | fuel + 1, depth, .value, cs =>
    match skipWs cs with
    | [] => none
    | c :: rest =>
      if c == '{' then
        if maxNestingDepth ≤ depth then none
        else
          match skipWs rest with
          | '}' :: rest1 => some (.obj [], rest1)
          | _ => parseJson fuel (depth + 1) (.member []) rest
      else if c == '[' then
        if maxNestingDepth ≤ depth then none
        else
          match skipWs rest with
          | ']' :: rest1 => some (.arr [], rest1)
          | _ =>
            match parseJson fuel (depth + 1) .value rest with
            | some (v, rest1) => parseJson fuel (depth + 1) (.elemsTail [v]) rest1
            | none => none
      else if c == '"' then
        match scanString (rest.length + 1) rest [] with
        | some (s, rest1) => some (.str s, rest1)
        | none => none
      else if c == 't' then (stripLit "true" (c :: rest)).map (fun r => (.bool true, r))
      else if c == 'f' then (stripLit "false" (c :: rest)).map (fun r => (.bool false, r))
      else if c == 'n' then (stripLit "null" (c :: rest)).map (fun r => (.null, r))
      else
        match scanNumber (c :: rest) with
        | some (lit, rest1) => some (.num lit, rest1)
        | none => none
  | fuel + 1, depth, .elemsTail acc, cs =>
    match skipWs cs with
    | ',' :: rest =>
      match parseJson fuel depth .value rest with
      | some (v, rest1) => parseJson fuel depth (.elemsTail (acc ++ [v])) rest1
      | none => none
    | ']' :: rest => some (.arr acc, rest)
    | _ => none
  | fuel + 1, depth, .member acc, cs =>
    match skipWs cs with
    | '"' :: rest =>
      match scanString (rest.length + 1) rest [] with
      | some (k, rest1) =>
        match skipWs rest1 with
        | ':' :: rest2 =>
          match parseJson fuel depth .value rest2 with
          | some (v, rest3) => parseJson fuel depth (.membersTail (acc ++ [(k, v)])) rest3
          | none => none
        | _ => none
      | none => none
    | _ => none
  | fuel + 1, depth, .membersTail acc, cs =>
    match skipWs cs with
    | ',' :: rest => parseJson fuel depth (.member acc) rest
    | '}' :: rest => some (.obj acc, rest)
    | _ => none

/-- A whole text as one JSON value, white space allowed around it. -/
def jsonDecode (s : String) : Option Json :=
  match parseJson (s.length + 1) 0 .value s.data with
  | some (v, rest) => if skipWs rest = [] then some v else none
  | none => none

/-- The call `json.Unmarshal([]byte(s), &args)` with `var args map[string]interface{}`:
an error for text that is not JSON or is JSON of another kind than an object or null;
`null` leaves `args` nil (`none`); an object fills the map, in the order of the text. -/
def jsonUnmarshalMap (s : String) : Except String (Option (List (String × Json))) :=
  match jsonDecode s with
  | none => .error "invalid character or unexpected end of JSON input"
  | some .null => .ok none
  | some (.obj kvs) => .ok (some kvs)
  | some _ => .error "json: cannot unmarshal into Go value of type map[string]interface {}"

/-- The expression `args[k]` on a `map[string]interface{}`: the value stored last under
the key, or nil (`none`) when the key is absent or the map is nil. -/
def mapIndex (args : Option (List (String × Json))) (k : String) : Option Json :=
  match args with
  | none => none
  | some kvs => (kvs.reverse.find? (fun kv => kv.1 == k)).map (fun kv => kv.2)

/-! ## embeddings.go: the embedding gateway, the record store and the retriever -/

/-- The argument of `CreateBlob`, an `interface{}` holding a string or a slice of strings;
the program passes nothing else, so the `default` branch of the type switch is left out. -/
inductive BlobInput where
  | str (v : String)
  | strs (v : List String)

/-- The loop of `CreateBlob` that serialises the vectors of the response in order and
stops at the first error. -/
def serializeLoop (env : Env) : List Embedding → List Blob → Except String (List Blob)
  | [], results => .ok results
  | emb :: data, results =>
    match env.SerializeFloat32 emb with
    | .error e => .error e
    | .ok bts => serializeLoop env data (results ++ [bts])

/-- The type switch of `CreateBlob`: the inputs sent to the embedding endpoint. -/
def BlobInput.inputs : BlobInput → List String
  | .str v => [v]
  | .strs v => v

/-- The method `DB.CreateBlob`. -/
def CreateBlob (env : Env) (w : World) (input : BlobInput) : Res (List Blob) :=
  let req : EmbeddingRequest := { Input := input.inputs, Model := LargeEmbedding3 }
  let w1 : World := { w with trace := w.trace ++ [Event.embeddings req] }
  match env.CreateEmbeddings w.trace req with
  | .error e => .fatal e w1
  | .ok data =>
    match serializeLoop env data [] with
    | .error e => .fatal e w1
    | .ok results => .ok results w1

/-- The method `DB.InsertBlob`: one `INSERT INTO course (id, plain, embedding)`. -/
def InsertBlob (env : Env) (w : World) (rowid : Nat) (p : String) (b : Blob) : Res Unit :=
  let w1 : World := { w with trace := w.trace ++ [Event.sqlExec rowid p b] }
  match env.execError w.trace rowid p b with
  | some e => .fatal e w1
  | none => .ok () { w1 with rows := w1.rows ++ [{ id := rowid, plain := p, embedding := b }] }

/-- The distance column of a row for the query vector `b`. -/
def rowDistance (env : Env) (b : Blob) (r : Row) : Nat :=
  env.distance r.embedding b

/-- The rows of `SELECT id, plain, distance FROM course WHERE embedding MATCH ? ORDER BY
distance LIMIT 3`: the table ordered by distance, cut after three rows. The statement
leaves the order of rows at the same distance to the engine; here they stay in table
order, and no property stated below depends on that choice. -/
def selectNearest (env : Env) (rows : List Row) (b : Blob) : List Row :=
  (rows.insertionSort (fun r s => rowDistance env b r ≤ rowDistance env b s)).take 3

/-- The method `DB.Query`. -/
def Query (env : Env) (w : World) (p : String) : Res (List String) :=
  match CreateBlob env w (.str p) with
  | .fatal e w1 => .fatal e w1
  | .panic e w1 => .panic e w1
  | .ok blobs w1 =>
    match blobs with
    | [] => .panic "index out of range [0] with length 0" w1
    | b :: _ =>
      let w2 : World := { w1 with trace := w1.trace ++ [Event.sqlQuery b] }
      match env.queryError w1.trace b with
      | some e => .fatal e w2
      | none => .ok ((selectNearest env w2.rows b).map Row.plain) w2

/-! ## chat.go: the tool-calling dialogue -/

/-- The method `DB.createTools`. -/
def createTools : List Tool :=
  let params : Definition :=
    { Type_ := "object",
      Properties := [("query",
        { Type_ := "string",
          Description := "Search key information for course. Can be an instructor name, course subject/department, building/location or any relevant keyword." })],
      Required := ["query"] }
  let f : FunctionDefinition :=
    { Name := "search_courses",
      Description := "Search the course database for courses matching the query. Use this to find courses by instructor, subject, location, topic, or any other course attribute.",
      Parameters := params }
  let t : Tool := { Type_ := "function", Function := f }
  [t]

/-- The method `DB.executeTool`. -/
def executeTool (env : Env) (w : World) (toolCall : ToolCall) : Res String :=
  match jsonUnmarshalMap toolCall.Function.Arguments with
  | .error _ => .ok "Error parsing arguments" w
  | .ok args =>
    match mapIndex args "query" with
    | some (.str q) =>
      match Query env w q with
      | .fatal e w1 => .fatal e w1
      | .panic e w1 => .panic e w1
      | .ok results w1 => .ok (Join results "\n") w1
    | _ => .panic "interface conversion: interface {} is not string" w

/-- The message appended for a tool call whose execution gave `result`. -/
def toolMessage (toolCall : ToolCall) (result : String) : ChatCompletionMessage :=
  { Role := ChatMessageRoleTool, Content := result, Name := toolCall.Function.Name,
    ToolCalls := [], ToolCallID := toolCall.ID }

/-- The loop `for _, toolCall := range msg.ToolCalls` of `Chat`. -/
def runTools (env : Env) : World → List ToolCall → Res Unit
  | w, [] => .ok () w
  | w, toolCall :: rest =>
    match executeTool env w toolCall with
    | .fatal e w1 => .fatal e w1
    | .panic e w1 => .panic e w1
    | .ok result w1 =>
      runTools env { w1 with dialogue := w1.dialogue ++ [toolMessage toolCall result] } rest

/-- The message appended for a question of the user. -/
def userMessage (question : String) : ChatCompletionMessage :=
  { Role := ChatMessageRoleUser, Content := question, Name := "", ToolCalls := [],
    ToolCallID := "" }

/-- The request both model calls of `Chat` send: model, whole dialogue, tool definition. -/
def chatRequest (dialogue : List ChatCompletionMessage) : ChatCompletionRequest :=
  { Model := "gpt-4o-mini", Messages := dialogue, Tools := createTools }

/-- The output of `fmt.Printf("Tokens: %d\n", n)`. -/
def tokensLine (n : Int) : String :=
  "Tokens: " ++ toString n ++ "\n"

def fallbackAnswer : String :=
  "I found some information but couldn't formulate a response. Please try again."

/-- The method `DB.Chat`. -/
def Chat (env : Env) (w : World) (question : String) : Res String :=
  let w1 : World := { w with dialogue := w.dialogue ++ [userMessage question] }
  let req := chatRequest w1.dialogue
  let w2 : World := { w1 with trace := w1.trace ++ [Event.chatCompletion req] }
  match env.CreateChatCompletion w1.trace req with
  | .error e => .fatal e w2
  | .ok resp =>
    match resp.Choices with
    | [] => .panic "index out of range [0] with length 0" w2
    | choice :: _ =>
      let msg := choice.Message
      let w3 : World := { w2 with dialogue := w2.dialogue ++ [msg] }
      if msg.ToolCalls.length = 0 then
        .ok msg.Content { w3 with stdout := w3.stdout ++ [tokensLine resp.Usage.TotalTokens] }
      else
        match runTools env w3 msg.ToolCalls with
        | .fatal e w4 => .fatal e w4
        | .panic e w4 => .panic e w4
        | .ok _ w4 =>
          let newreq := chatRequest w4.dialogue
          let w5 : World := { w4 with trace := w4.trace ++ [Event.chatCompletion newreq] }
          match env.CreateChatCompletion w4.trace newreq with
          | .error e => .fatal e w5
          | .ok resp2 =>
            match resp2.Choices with
            | [] => .panic "index out of range [0] with length 0" w5
            | choice2 :: _ =>
              let finalMsg := choice2.Message
              let w6 : World := { w5 with dialogue := w5.dialogue ++ [finalMsg] }
              let w7 : World :=
                { w6 with stdout := w6.stdout ++ [tokensLine resp2.Usage.TotalTokens] }
              let finalContent := choice2.Message.Content
              if TrimSpace finalContent = "" then .ok fallbackAnswer w7
              else .ok finalContent w7

/-! ## embeddings.go: `load_csv`

The file is given as the records the `encoding/csv` lexer finds in it, header first; a
file the lexer rejects (a stray quote) is not represented. -/

/-- The error of `csv.Reader.Read` for a lexed record when `FieldsPerRecord` is `fpr`:
`ErrFieldCount` when the reader expects another number of fields. -/
def readError (fpr : Int) (record : List String) : Option String :=
  if 0 < fpr ∧ (record.length : Int) ≠ fpr then some "wrong number of fields" else none

/-- The value of `FieldsPerRecord` after a record was read: the reader is created with 0,
so the first record fixes the number of fields of all later ones. -/
def nextFieldsPerRecord (fpr : Int) (record : List String) : Int :=
  if fpr = 0 then (record.length : Int) else fpr

/-- The map `idx` built from the header: a name is mapped to its last position. -/
def headerIndex (header : List String) (k : String) : Option Nat :=
  (header.enum.reverse.find? (fun p => p.2 == k)).map (fun p => p.1)

def required : List String :=
  ["SUBJ", "CRSE NUM", "SEC",
   "Title Short Desc",
   "Primary Instructor First Name", "Primary Instructor Last Name",
   "Primary Instructor Email",
   "Meet Days", "Begin Time", "End Time",
   "BLDG", "RM"]

/-- The flag `ok` after the loop over `required`: every required column is in the header
and its index is within the record. -/
def rowOk (idx : String → Option Nat) (record : List String) : Bool :=
  required.all (fun k =>
    match idx k with
    | none => false
    | some i => decide (i < record.length))

/-- The expression `record[idx[k]]`; it is evaluated only after `rowOk`, which puts the
index within the record. -/
def field (idx : String → Option Nat) (record : List String) (k : String) : String :=
  record.getD ((idx k).getD 0) ""

/-- The course built from a record that passed the check. -/
def mkCourse (idx : String → Option Nat) (record : List String) : Course :=
  let first := TrimSpace (field idx record "Primary Instructor First Name")
  let last := TrimSpace (field idx record "Primary Instructor Last Name")
  let instr := TrimSpace (first ++ " " ++ last)
  { Subj := field idx record "SUBJ",
    Number := field idx record "CRSE NUM",
    Section := field idx record "SEC",
    Title := field idx record "Title Short Desc",
    Instructor := instr,
    Email := field idx record "Primary Instructor Email",
    Days := field idx record "Meet Days",
    StartTime := field idx record "Begin Time",
    EndTime := field idx record "End Time",
    Building := field idx record "BLDG",
    Room := field idx record "RM" }

/-- The labelled text line of a course, as formatted by `fmt.Sprintf`. -/
def renderLine (c : Course) : String :=
  "SUBJ:" ++ c.Subj ++ " Number:" ++ c.Number ++ " Section:" ++ c.Section ++
  " Title:" ++ c.Title ++ " Instructor:" ++ c.Instructor ++ " Email:" ++ c.Email ++
  " Days:" ++ c.Days ++ " Time:" ++ c.StartTime ++ "-" ++ c.EndTime ++
  " Building:" ++ c.Building ++ " Room:" ++ c.Room

/-- The statement `m[k] = append(m[k], c)` on a `map[string][]Course`. -/
def mapAppend (m : List (String × List Course)) (k : String) (c : Course) :
    List (String × List Course) :=
  if m.any (fun e => e.1 == k) then
    m.map (fun e => if e.1 == k then (e.1, e.2 ++ [c]) else e)
  else m ++ [(k, [c])]

/-- The variables the row loop of `load_csv` updates. -/
structure Ingest where
  courses : List Course
  lines : List String
  instructorMap : List (String × List Course)
  subjectMap : List (String × List Course)
deriving DecidableEq, Repr

/-- The loop `for { record, err := reader.Read(); if err != nil { break } ... }`: the end
of the input and any read error leave the loop; a record that fails the check is skipped. -/
def rowLoop (idx : String → Option Nat) : List (List String) → Int → Ingest → Ingest
  | [], _, st => st
  | record :: rest, fpr, st =>
    match readError fpr record with
    | some _ => st
    | none =>
      let fpr1 := nextFieldsPerRecord fpr record
      if rowOk idx record then
        let c := mkCourse idx record
        rowLoop idx rest fpr1
          { courses := st.courses ++ [c],
            lines := st.lines ++ [renderLine c],
            instructorMap := mapAppend st.instructorMap c.Instructor c,
            subjectMap := mapAppend st.subjectMap c.Subj c }
      else rowLoop idx rest fpr1 st

/-- The loop `for j, blob := range blobs { db.InsertBlob(rowid, batch[j], blob); rowid++ }`;
returns the next `rowid`. -/
def insertLoop (env : Env) (batch : List String) : List Blob → Nat → Nat → World → Res Nat
  | [], _, rowid, w => .ok rowid w
  | blob :: blobs, j, rowid, w =>
    match batch[j]? with
    | none => .panic "index out of range" w
    | some line =>
      match InsertBlob env w rowid line blob with
      | .fatal e w1 => .fatal e w1
      | .panic e w1 => .panic e w1
      | .ok _ w1 => insertLoop env batch blobs (j + 1) (rowid + 1) w1

def batchSize : Nat := 100

/-- The output of `fmt.Printf("Progress: %d/%d courses loaded\n", end, total)`. -/
def progressLine (e total : Nat) : String :=
  "Progress: " ++ toString e ++ "/" ++ toString total ++ " courses loaded\n"

/-- The loop `for i := 0; i < total; i += batchSize`, from the state `i`, `rowid`. The
first argument bounds the number of iterations; `total` is always enough. -/
def batchLoop (env : Env) (lines : List String) (total : Nat) :
    Nat → Nat → Nat → World → Res Unit
  | 0, _, _, w => .ok () w
  | fuel + 1, i, rowid, w =>
    if i < total then
      let e := if i + batchSize > total then total else i + batchSize
      let batch := (lines.drop i).take (e - i)
      match CreateBlob env w (.strs batch) with
      | .fatal m w1 => .fatal m w1
      | .panic m w1 => .panic m w1
      | .ok blobs w1 =>
        match insertLoop env batch blobs 0 rowid w1 with
        | .fatal m w2 => .fatal m w2
        | .panic m w2 => .panic m w2
        | .ok rowid1 w2 =>
          batchLoop env lines total fuel (i + batchSize) rowid1
            { w2 with stdout := w2.stdout ++ [progressLine e total] }
    else .ok () w

/-- The function `load_csv`; `file` is `none` when `courses.csv` cannot be opened. -/
def load_csv (env : Env) (file : Option (List (List String))) (w : World) : Res Unit :=
  match file with
  | none => .fatal "open courses.csv" w
  | some [] => .fatal "EOF" w
  | some (header :: records) =>
    let idx := headerIndex header
    let st := rowLoop idx records (nextFieldsPerRecord 0 header)
      { courses := [], lines := [], instructorMap := w.instructorMap,
        subjectMap := w.subjectMap }
    let total := st.courses.length
    let w1 : World :=
      { w with instructorMap := st.instructorMap, subjectMap := st.subjectMap,
               stdout := w.stdout ++ ["Loading " ++ toString total ++ " courses into database...\n"] }
    match batchLoop env st.lines total total 0 1 w1 with
    | .fatal m w2 => .fatal m w2
    | .panic m w2 => .panic m w2
    | .ok _ w2 => .ok () { w2 with stdout := w2.stdout ++ ["Database loaded successfully!\n"] }

/-! ## Notions used to state the properties -/

/-- Whether an outside call is a call of the language model. -/
def Event.isChat : Event → Bool
  | .chatCompletion _ => true
  | _ => false

/-- Whether an outside call belongs to a retrieval: the embedding endpoint or the
nearest-neighbour query. -/
def Event.isRetrieval : Event → Bool
  | .embeddings _ => true
  | .sqlQuery _ => true
  | _ => false

/-- The messages an outside call submitted to the language model; none for other calls. -/
def Event.chatMessages : Event → List ChatCompletionMessage
  | .chatCompletion req => req.Messages
  | _ => []

/-- The number of language-model calls in a trace. -/
def modelCalls (t : List Event) : Nat :=
  t.countP Event.isChat

/-- The world right after the first model call of `Chat` answered with `msg`. -/
def afterFirstCall (w : World) (question : String) (msg : ChatCompletionMessage) : World :=
  { w with
    dialogue := w.dialogue ++ [userMessage question, msg],
    trace := w.trace ++ [Event.chatCompletion (chatRequest (w.dialogue ++ [userMessage question]))] }

/-- A string that is empty or made of white space only. -/
def isBlank (s : String) : Bool :=
  s.data.all unicodeIsSpace

/-- The turn `m` is the tool result of the invocation `tc`, executed with the store of
`w` after the calls of `w`: it carries the id and name of `tc`, and its content is the
fixed text when the arguments do not parse, and the lines of `Query` for the string under
`query`, joined by newlines, when they do. -/
def IsToolTurn (env : Env) (w : World) (tc : ToolCall) (m : ChatCompletionMessage) : Prop :=
  m.Role = ChatMessageRoleTool ∧ m.ToolCallID = tc.ID ∧ m.Name = tc.Function.Name ∧
  m.ToolCalls = [] ∧
  ((∃ e, jsonUnmarshalMap tc.Function.Arguments = .error e ∧
      m.Content = "Error parsing arguments") ∨
   (∃ args q wq results wq1, jsonUnmarshalMap tc.Function.Arguments = .ok args ∧
      mapIndex args "query" = some (.str q) ∧
      wq.rows = w.rows ∧ w.trace <+: wq.trace ∧
      Query env wq q = .ok results wq1 ∧ m.Content = Join results "\n"))

/-- The rows `insertLoop` stores for the lines and blobs of one batch, from `rowid` on. -/
def putsOf : Nat → List String → List Blob → List Row
  | rowid, line :: ls, blob :: bs =>
    { id := rowid, plain := line, embedding := blob } :: putsOf (rowid + 1) ls bs
  | _, _, _ => []

/-- The row an `INSERT` statement of the trace carried. -/
def Event.execRow : Event → Option Row
  | .sqlExec rowid p b => some { id := rowid, plain := p, embedding := b }
  | _ => none

/-- The `INSERT` statement that stores a row. -/
def Row.exec (r : Row) : Event :=
  Event.sqlExec r.id r.plain r.embedding

/-- The puts of a trace, in the order they were made. -/
def execRows (t : List Event) : List Row :=
  t.filterMap Event.execRow

/-- Whether an outside call is a call of the embedding endpoint. -/
def Event.isEmbedding : Event → Bool
  | .embeddings _ => true
  | _ => false

/-- The number of calls of the embedding endpoint in a trace. -/
def gatewayCalls (t : List Event) : Nat :=
  t.countP Event.isEmbedding

/-- The blob is the embedding the gateway computed for the line in its call number `c`
(counted from 0) at position `j`: that call of the trace had the line as its input number
`j`, and the blob is the serialised vector number `j` of the answer to that call. -/
def EmbeddedBy (env : Env) (t : List Event) (c j : Nat) (line : String) (blob : Blob) : Prop :=
  ∃ (pos : Nat) (req : EmbeddingRequest) (data : List Embedding) (v : Embedding),
    t[pos]? = some (Event.embeddings req) ∧ gatewayCalls (t.take pos) = c ∧
    req.Input[j]? = some line ∧
    env.CreateEmbeddings (t.take pos) req = .ok data ∧ data[j]? = some v ∧
    env.SerializeFloat32 v = .ok blob

/-- The lines `load_csv` renders from a file with the given header and records. -/
def renderedLines (w : World) (header : List String) (records : List (List String)) :
    List String :=
  (rowLoop (headerIndex header) records (nextFieldsPerRecord 0 header)
    { courses := [], lines := [], instructorMap := w.instructorMap,
      subjectMap := w.subjectMap }).lines

/-- What the row loop of `load_csv` has built when it ends, for a file with the given
header and records: the course records, their lines, and the two maps. -/
def ingested (w : World) (header : List String) (records : List (List String)) : Ingest :=
  rowLoop (headerIndex header) records (nextFieldsPerRecord 0 header)
    { courses := [], lines := [], instructorMap := w.instructorMap,
      subjectMap := w.subjectMap }

/-! ## Concrete worlds and outsides, used to run the program on examples -/

/-- The system turn the dialogue starts with (`NewDB`). -/
def systemMessage : ChatCompletionMessage :=
  { Role := ChatMessageRoleSystem,
    Content := "You are a assistant for USF course queries using courses.db. Use search_courses to find information. Answer in 1-2 plain sentences without any formatting, bullet points, numbered lists, bold text, or line breaks. Use format like: 'Course X and Course Y are offered' or 'Professor teaches Course A (code) and Course B (code)'.",
    Name := "", ToolCalls := [], ToolCallID := "" }

/-- The world `NewDB` returns over a table with the given rows. -/
def newWorld (rows : List Row) : World :=
  { rows := rows, dialogue := [systemMessage], instructorMap := [], subjectMap := [],
    stdout := [], trace := [] }

/-- The little-endian bytes of the components: what `sqlite_vec.SerializeFloat32` writes. -/
def serializeLE (v : Embedding) : Except String Blob :=
  .ok (v.map (fun x => [x % 256, x / 256 % 256, x / 65536 % 256, x / 16777216 % 256])).flatten

/-- A stand-in for the embedding of a text: one component, the length of the text. -/
def sampleEmbedding (s : String) : Embedding :=
  [s.length]

/-- A stand-in for the distance of two stored vectors: the sum of the byte differences. -/
def sampleDistance (a b : Blob) : Nat :=
  (List.zipWith (fun x y => (x - y) + (y - x)) a b).sum

/-- An assistant message that answers with a text. -/
def textMessage (content : String) : ChatCompletionMessage :=
  { Role := ChatMessageRoleAssistant, Content := content, Name := "", ToolCalls := [],
    ToolCallID := "" }

/-- An assistant message that asks for tool calls. -/
def toolCallMessage (calls : List ToolCall) : ChatCompletionMessage :=
  { Role := ChatMessageRoleAssistant, Content := "", Name := "", ToolCalls := calls,
    ToolCallID := "" }

/-- A call of `search_courses` with the given id and argument text. -/
def searchCall (id args : String) : ToolCall :=
  { ID := id, Function := { Name := "search_courses", Arguments := args } }

/-- A response with one choice. -/
def response (m : ChatCompletionMessage) (tokens : Int) : ChatCompletionResponse :=
  { Choices := [{ Message := m }], Usage := { TotalTokens := tokens } }

/-- An outside in which no call fails: the language model answers its k-th call with the
k-th response of a script, every text gets an embedding, and the SQL engine accepts every
statement. -/
def scriptedEnv (script : List ChatCompletionResponse) : Env :=
  { CreateChatCompletion := fun t _ =>
      match script[modelCalls t]? with
      | some r => .ok r
      | none => .error "no more responses",
    CreateEmbeddings := fun _ req => .ok (req.Input.map sampleEmbedding),
    SerializeFloat32 := serializeLE,
    distance := sampleDistance,
    execError := fun _ _ _ _ => none,
    queryError := fun _ _ => none }

/-- The row stored for a text under the stand-in embedding. -/
def sampleRow (id : Nat) (plain : String) : Row :=
  { id := id, plain := plain,
    embedding :=
      match serializeLE (sampleEmbedding plain) with
      | .ok b => b
      | .error _ => [] }

def rowCS272 : Row :=
  sampleRow 1 "SUBJ:CS Number:272 Section:01 Title:Software Development Instructor:Philip Peterson Email:phpeterson@usfca.edu Days:TR Time:09:55-11:40 Building:HR Room:148"

def rowCS315 : Row :=
  sampleRow 2 "SUBJ:CS Number:315 Section:01 Title:Operating Systems Instructor:Greg Benson Email:benson@usfca.edu Days:MW Time:14:40-16:25 Building:KA Room:111"

def rowMATH109 : Row :=
  sampleRow 3 "SUBJ:MATH Number:109 Section:02 Title:Calculus I Instructor:Ada Wong Email:awong@usfca.edu Days:MWF Time:08:00-09:05 Building:LS Room:G12"

def rowBIO105 : Row :=
  sampleRow 4 "SUBJ:BIOL Number:105 Section:01 Title:General Biology Instructor:Li Chen Email:lchen@usfca.edu Days:TR Time:12:45-14:30 Building:HR Room:232"

def sampleWorld : World :=
  newWorld [rowCS272, rowCS315]

def sampleQuestion : String :=
  "Who is teaching CS 272?"

/-- A well-formed invocation: `{"query": "Philip Peterson"}`. -/
def goodCall : ToolCall :=
  searchCall "call_1" "\x7b\"query\": \"Philip Peterson\"\x7d"

/-- An invocation whose arguments are not JSON. -/
def garbledCall : ToolCall :=
  searchCall "call_2" "query=Philip Peterson"

/-- An invocation whose arguments are the empty object `{}`. -/
def emptyObjectCall : ToolCall :=
  searchCall "call_3" "\x7b\x7d"

/-- The model asks for one well-formed search, then answers with white space only. -/
def envBlankFollowUp : Env :=
  scriptedEnv [response (toolCallMessage [goodCall]) 31, response (textMessage " \n") 12]

/-- The model asks for a garbled and a well-formed search, then answers. -/
def envGarbled : Env :=
  scriptedEnv [response (toolCallMessage [garbledCall, goodCall]) 31,
    response (textMessage "Philip Peterson teaches CS 272.") 12]

/-- The model asks for a search with the arguments `{}`, and would answer next. -/
def envEmptyObject : Env :=
  scriptedEnv [response (toolCallMessage [emptyObjectCall]) 31,
    response (textMessage "Philip Peterson teaches CS 272.") 12]

/-- The model asks for a search, answers, and answers a second question directly. -/
def envTwoQuestions : Env :=
  scriptedEnv [response (toolCallMessage [goodCall]) 31,
    response (textMessage "Philip Peterson teaches CS 272.") 12,
    response (textMessage "His email address is phpeterson@usfca.edu.") 9]

/-- The model asks for one search whose arguments are not JSON, then answers. -/
def envGarbledOnly : Env :=
  scriptedEnv [response (toolCallMessage [garbledCall]) 31,
    response (textMessage "I could not search the catalog.") 12]

/-- A header with exactly the required columns. -/
def sampleHeader : List String :=
  required

def recordCS272 : List String :=
  ["CS", "272", "01", "Software Development", "Philip", "Peterson", "phpeterson@usfca.edu",
   "TR", "09:55", "11:40", "HR", "148"]

def recordCS315 : List String :=
  ["CS", "315", "01", "Operating Systems", "Greg", "Benson", "benson@usfca.edu",
   "MW", "14:40", "16:25", "KA", "111"]

/-- A record that lacks its last field, the one of the column `RM`. -/
def recordNoRoom : List String :=
  ["CS", "110", "02", "Intro to Computer Science", "Alark", "Joshi", "apjoshi@usfca.edu",
   "MWF", "10:30", "11:35", "LS"]

/-- A file of 201 records with all fields: three batches of 100, 100 and 1 lines. -/
def sampleFile : List (List String) :=
  sampleHeader :: recordCS272 :: recordCS315 :: List.replicate 199 recordCS272

/-- An outside whose language model is down: every model call returns an error. -/
def envModelDown : Env :=
  { scriptedEnv [] with
    CreateChatCompletion := fun _ _ => .error "Post \"https://api.openai.com/v1/chat/completions\": connection refused" }

/-- The model asks for one well-formed search; its follow-up call returns an error. -/
def envFollowUpDown : Env :=
  scriptedEnv [response (toolCallMessage [goodCall]) 31]

/-- The model asks for one well-formed search; the embedding endpoint is down. -/
def envEmbeddingDown : Env :=
  { scriptedEnv [response (toolCallMessage [goodCall]) 31,
      response (textMessage "Philip Peterson teaches CS 272.") 12] with
    CreateEmbeddings := fun _ _ => .error "error, status code: 429, message: rate limit reached" }

/-- A record whose first-name field ends with a blank, as padded exports have it. -/
def recordPadded : List String :=
  ["CS", "272", "01", "Software Development", "Philip ", "Peterson", "phpeterson@usfca.edu",
   "TR", "09:55", "11:40", "HR", "148"]

end CourseCatalog

namespace CourseCatalog

/-! ## Effects of the retrieval functions on the world -/

theorem CreateBlob_world (env : Env) (w : World) (input : BlobInput) :
    ∃ req, (CreateBlob env w input).world =
      { w with trace := w.trace ++ [Event.embeddings req] } := by
  refine ⟨{ Input := input.inputs, Model := LargeEmbedding3 }, ?_⟩
  unfold CreateBlob
  simp only []
  split
  · rfl
  · split <;> rfl

theorem Query_world (env : Env) (w : World) (p : String) :
    ∃ evs, (Query env w p).world = { w with trace := w.trace ++ evs } ∧
      ∀ e ∈ evs, e.isRetrieval = true := by
  obtain ⟨req, hreq⟩ := CreateBlob_world env w (.str p)
  unfold Query
  split
  · rename_i e w1 h
    rw [h] at hreq
    exact ⟨[Event.embeddings req], hreq, by simp [Event.isRetrieval]⟩
  · rename_i e w1 h
    rw [h] at hreq
    exact ⟨[Event.embeddings req], hreq, by simp [Event.isRetrieval]⟩
  · rename_i blobs w1 h
    rw [h] at hreq
    simp only [Res.world] at hreq
    split
    · exact ⟨[Event.embeddings req], hreq, by simp [Event.isRetrieval]⟩
    · rename_i b bs
      refine ⟨[Event.embeddings req, Event.sqlQuery b], ?_, by simp [Event.isRetrieval]⟩
      split <;> simp [Res.world, hreq]

theorem executeTool_world (env : Env) (w : World) (tc : ToolCall) :
    ∃ evs, (executeTool env w tc).world = { w with trace := w.trace ++ evs } ∧
      ∀ e ∈ evs, e.isRetrieval = true := by
  unfold executeTool
  split
  · exact ⟨[], by simp [Res.world], by simp⟩
  · split
    · rename_i q _
      obtain ⟨evs, h1, h2⟩ := Query_world env w q
      refine ⟨evs, ?_, h2⟩
      split <;> rename_i h <;> rw [h] at h1 <;> exact h1
    · exact ⟨[], by simp [Res.world], by simp⟩

theorem executeTool_ok (env : Env) (w w1 : World) (tc : ToolCall) (r : String)
    (h : executeTool env w tc = .ok r w1) : IsToolTurn env w tc (toolMessage tc r) := by
  refine ⟨rfl, rfl, rfl, rfl, ?_⟩
  unfold executeTool at h
  split at h
  · rename_i e he
    left
    simp only [Res.ok.injEq] at h
    exact ⟨e, he, by simp [toolMessage, h.1]⟩
  · rename_i args hargs
    split at h
    · rename_i q hq
      split at h
      · simp at h
      · simp at h
      · rename_i results wq1 hquery
        right
        simp only [Res.ok.injEq] at h
        exact ⟨args, q, w, results, wq1, hargs, hq, rfl, List.prefix_refl _, hquery,
          by simp [toolMessage, h.1]⟩
    · simp at h

theorem IsToolTurn_mono (env : Env) (w w2 : World) (tc : ToolCall) (m : ChatCompletionMessage)
    (hrows : w2.rows = w.rows) (htrace : w.trace <+: w2.trace)
    (h : IsToolTurn env w2 tc m) : IsToolTurn env w tc m := by
  obtain ⟨h1, h2, h3, h4, h5⟩ := h
  refine ⟨h1, h2, h3, h4, ?_⟩
  rcases h5 with h5 | ⟨args, q, wq, results, wq1, ha, hq, hr, ht, hQ, hc⟩
  · exact Or.inl h5
  · exact Or.inr ⟨args, q, wq, results, wq1, ha, hq, hr.trans hrows, htrace.trans ht, hQ, hc⟩

/-- The tool loop, when it completes: one tool-result turn per invocation, in order, and
only retrieval calls in between. -/
theorem runTools_ok (env : Env) (tcs : List ToolCall) :
    ∀ (w w1 : World) (u : Unit), runTools env w tcs = .ok u w1 →
      ∃ msgs evs, w1 = { w with dialogue := w.dialogue ++ msgs, trace := w.trace ++ evs } ∧
        List.Forall₂ (IsToolTurn env w) tcs msgs ∧ ∀ e ∈ evs, e.isRetrieval = true := by
  induction tcs with
  | nil =>
    intro w w1 u h
    simp only [runTools, Res.ok.injEq] at h
    exact ⟨[], [], by simp [← h.2], List.Forall₂.nil, by simp⟩
  | cons tc rest ih =>
    intro w w1 u h
    obtain ⟨evs0, hw0, hev0⟩ := executeTool_world env w tc
    unfold runTools at h
    split at h
    · simp at h
    · simp at h
    · rename_i result w0 hexec
      rw [hexec] at hw0
      simp only [Res.world] at hw0
      obtain ⟨msgs, evs, hw1, hall, hev⟩ := ih _ _ u h
      refine ⟨toolMessage tc result :: msgs, evs0 ++ evs, ?_, ?_, ?_⟩
      · rw [hw1, hw0]; simp
      · refine List.Forall₂.cons (executeTool_ok env w w0 tc result hexec) ?_
        refine hall.imp ?_
        intro a b hab
        refine IsToolTurn_mono env w _ a b ?_ ?_ hab
        · rw [hw0]
        · rw [hw0]; exact List.prefix_append _ _
      · intro e he
        rcases List.mem_append.1 he with he | he
        · exact hev0 e he
        · exact hev e he

/-- The tool loop, however it ends: the dialogue and the trace only grow, and the trace
grows by retrieval calls only. -/
theorem runTools_world (env : Env) (tcs : List ToolCall) :
    ∀ (w : World), ∃ msgs evs,
      (runTools env w tcs).world =
        { w with dialogue := w.dialogue ++ msgs, trace := w.trace ++ evs } ∧
      ∀ e ∈ evs, e.isRetrieval = true := by
  induction tcs with
  | nil =>
    intro w
    exact ⟨[], [], by simp [runTools, Res.world], by simp⟩
  | cons tc rest ih =>
    intro w
    obtain ⟨evs0, hw0, hev0⟩ := executeTool_world env w tc
    unfold runTools
    split
    · rename_i e w0 hexec
      rw [hexec] at hw0
      exact ⟨[], evs0, by simpa [Res.world] using hw0, hev0⟩
    · rename_i e w0 hexec
      rw [hexec] at hw0
      exact ⟨[], evs0, by simpa [Res.world] using hw0, hev0⟩
    · rename_i result w0 hexec
      rw [hexec] at hw0
      simp only [Res.world] at hw0
      obtain ⟨msgs, evs, hw1, hev⟩ := ih { w0 with dialogue := w0.dialogue ++ [toolMessage tc result] }
      refine ⟨toolMessage tc result :: msgs, evs0 ++ evs, ?_, ?_⟩
      · rw [hw1, hw0]; simp
      · intro e he
        rcases List.mem_append.1 he with he | he
        · exact hev0 e he
        · exact hev e he

theorem modelCalls_append (t evs : List Event) :
    modelCalls (t ++ evs) = modelCalls t + modelCalls evs := by
  simp [modelCalls, List.countP_append]

theorem modelCalls_retrieval (evs : List Event) (h : ∀ e ∈ evs, e.isRetrieval = true) :
    modelCalls evs = 0 := by
  unfold modelCalls
  rw [List.countP_eq_zero]
  intro e he
  have := h e he
  cases e <;> simp_all [Event.isRetrieval, Event.isChat]

/-! ## The two paths of `Chat` -/

theorem TrimSpace_eq_empty_iff (s : String) : TrimSpace s = "" ↔ isBlank s = true := by
  unfold TrimSpace isBlank
  constructor
  · intro h
    have h1 : ((s.data.dropWhile unicodeIsSpace).reverse.dropWhile unicodeIsSpace).reverse = [] := by
      have := congrArg String.data h
      simpa using this
    rw [List.reverse_eq_nil_iff, List.dropWhile_eq_nil_iff] at h1
    rw [List.all_eq_true]
    by_contra hne
    push_neg at hne
    obtain ⟨c, hc, hcs⟩ := hne
    have hnil : s.data.dropWhile unicodeIsSpace ≠ [] := by
      intro h0
      rw [List.dropWhile_eq_nil_iff] at h0
      exact hcs (h0 c hc)
    obtain ⟨x, xs, hx⟩ := List.exists_cons_of_ne_nil hnil
    have hhead := List.head_dropWhile_not unicodeIsSpace s.data hnil
    have hmem : (s.data.dropWhile unicodeIsSpace).head hnil ∈
        (s.data.dropWhile unicodeIsSpace).reverse :=
      List.mem_reverse.2 (List.head_mem hnil)
    have := h1 _ hmem
    simp [this] at hhead
  · intro h
    rw [List.all_eq_true] at h
    have h0 : s.data.dropWhile unicodeIsSpace = [] := by
      rw [List.dropWhile_eq_nil_iff]
      exact h
    simp [h0]

theorem Chat_direct_path (env : Env) (w : World) (question : String)
    (resp : ChatCompletionResponse) (choice : ChatCompletionChoice)
    (rest : List ChatCompletionChoice)
    (hresp : env.CreateChatCompletion w.trace
      (chatRequest (w.dialogue ++ [userMessage question])) = .ok resp)
    (hchoice : resp.Choices = choice :: rest)
    (hnone : choice.Message.ToolCalls = []) :
    Chat env w question = .ok choice.Message.Content
      { afterFirstCall w question choice.Message with
        stdout := w.stdout ++ [tokensLine resp.Usage.TotalTokens] } := by
  unfold Chat
  simp only [hresp, hchoice, hnone, List.length_nil, if_true, afterFirstCall,
    List.append_assoc, List.singleton_append]

theorem Chat_tool_path (env : Env) (w : World) (question : String)
    (resp : ChatCompletionResponse) (choice : ChatCompletionChoice)
    (rest : List ChatCompletionChoice) (w4 : World)
    (resp2 : ChatCompletionResponse) (choice2 : ChatCompletionChoice)
    (rest2 : List ChatCompletionChoice)
    (hresp : env.CreateChatCompletion w.trace
      (chatRequest (w.dialogue ++ [userMessage question])) = .ok resp)
    (hchoice : resp.Choices = choice :: rest)
    (htools : choice.Message.ToolCalls ≠ [])
    (hrun : runTools env (afterFirstCall w question choice.Message)
      choice.Message.ToolCalls = .ok () w4)
    (hresp2 : env.CreateChatCompletion w4.trace (chatRequest w4.dialogue) = .ok resp2)
    (hchoice2 : resp2.Choices = choice2 :: rest2) :
    Chat env w question =
      .ok (if TrimSpace choice2.Message.Content = "" then fallbackAnswer
           else choice2.Message.Content)
        { w4 with
          dialogue := w4.dialogue ++ [choice2.Message],
          trace := w4.trace ++ [Event.chatCompletion (chatRequest w4.dialogue)],
          stdout := w4.stdout ++ [tokensLine resp2.Usage.TotalTokens] } := by
  have hlen : ¬ choice.Message.ToolCalls.length = 0 := by
    rw [List.length_eq_zero]; exact htools
  have hrun1 : runTools env
      { rows := w.rows, dialogue := w.dialogue ++ [userMessage question] ++ [choice.Message],
        instructorMap := w.instructorMap, subjectMap := w.subjectMap, stdout := w.stdout,
        trace := w.trace ++
          [Event.chatCompletion (chatRequest (w.dialogue ++ [userMessage question]))] }
      choice.Message.ToolCalls = .ok () w4 := by
    rw [← hrun]; simp [afterFirstCall]
  unfold Chat
  simp only [hresp, hchoice, hlen, if_false, hrun1, hresp2, hchoice2]
  split <;> rfl

/-- When the tool loop and the follow-up call complete, `Chat` made exactly two model
calls: the trace is the old one, the first call, retrieval calls only, and the follow-up
call at the very end, so nothing the follow-up response asks for is executed. -/
theorem Chat_two_model_calls (env : Env) (w : World) (question : String)
    (resp : ChatCompletionResponse) (choice : ChatCompletionChoice)
    (rest : List ChatCompletionChoice) (w4 : World)
    (resp2 : ChatCompletionResponse) (choice2 : ChatCompletionChoice)
    (rest2 : List ChatCompletionChoice)
    (hresp : env.CreateChatCompletion w.trace
      (chatRequest (w.dialogue ++ [userMessage question])) = .ok resp)
    (hchoice : resp.Choices = choice :: rest)
    (htools : choice.Message.ToolCalls ≠ [])
    (hrun : runTools env (afterFirstCall w question choice.Message)
      choice.Message.ToolCalls = .ok () w4)
    (hresp2 : env.CreateChatCompletion w4.trace (chatRequest w4.dialogue) = .ok resp2)
    (hchoice2 : resp2.Choices = choice2 :: rest2) :
    (Chat env w question).returned = true ∧
    modelCalls (Chat env w question).world.trace = modelCalls w.trace + 2 ∧
    ∃ evs, (∀ e ∈ evs, e.isRetrieval = true) ∧
      (Chat env w question).world.trace =
        w.trace ++ [Event.chatCompletion (chatRequest (w.dialogue ++ [userMessage question]))]
          ++ evs ++ [Event.chatCompletion (chatRequest w4.dialogue)] := by
  obtain ⟨msgs, evs, hw4, -, hev⟩ := runTools_ok env _ _ _ () hrun
  rw [Chat_tool_path env w question resp choice rest w4 resp2 choice2 rest2 hresp hchoice
    htools hrun hresp2 hchoice2]
  have ht : w4.trace = w.trace ++
      [Event.chatCompletion (chatRequest (w.dialogue ++ [userMessage question]))] ++ evs := by
    rw [hw4]; simp [afterFirstCall]
  refine ⟨?_, ?_, evs, hev, ?_⟩
  · split <;> rfl
  · have h0 := modelCalls_retrieval evs hev
    have h1 : ∀ r, modelCalls [Event.chatCompletion r] = 1 := fun r => rfl
    split <;> simp only [Res.world, ht, modelCalls_append, h0, h1]
  · split <;> simp [Res.world, ht]

/-! ## Direct answers and the fallback answer -/

/-- C2. When the first model response carries no tool invocation, `Chat` returns the text
of that response unchanged, whatever it is, after exactly one model call: the trace grows
by that call alone (no retrieval), the dialogue by the question and the response, and the
store is untouched. -/
theorem Chat_without_tool_call (env : Env) (w : World) (question : String)
    (resp : ChatCompletionResponse) (choice : ChatCompletionChoice)
    (rest : List ChatCompletionChoice)
    (hresp : env.CreateChatCompletion w.trace
      (chatRequest (w.dialogue ++ [userMessage question])) = .ok resp)
    (hchoice : resp.Choices = choice :: rest)
    (hnone : choice.Message.ToolCalls = []) :
    Chat env w question = .ok choice.Message.Content (Chat env w question).world ∧
    (Chat env w question).world.trace =
      w.trace ++ [Event.chatCompletion (chatRequest (w.dialogue ++ [userMessage question]))] ∧
    modelCalls (Chat env w question).world.trace = modelCalls w.trace + 1 ∧
    (Chat env w question).world.dialogue =
      w.dialogue ++ [userMessage question, choice.Message] ∧
    (Chat env w question).world.rows = w.rows := by
  rw [Chat_direct_path env w question resp choice rest hresp hchoice hnone]
  refine ⟨rfl, rfl, ?_, rfl, rfl⟩
  simp [Res.world, afterFirstCall, modelCalls_append, modelCalls, Event.isChat]

theorem Chat_without_tool_call_witness :
    (scriptedEnv [response (textMessage " \n") 5]).CreateChatCompletion (newWorld []).trace
      (chatRequest ((newWorld []).dialogue ++ [userMessage "Hi"])) =
        .ok (response (textMessage " \n") 5) ∧
    (response (textMessage " \n") 5).Choices = [{ Message := textMessage " \n" }] ∧
    (textMessage " \n").ToolCalls = [] ∧
    Chat (scriptedEnv [response (textMessage " \n") 5]) (newWorld []) "Hi" =
      .ok " \n" (Chat (scriptedEnv [response (textMessage " \n") 5]) (newWorld []) "Hi").world ∧
    modelCalls (Chat (scriptedEnv [response (textMessage " \n") 5]) (newWorld []) "Hi").world.trace
      = 1 :=
  have h := Chat_without_tool_call (scriptedEnv [response (textMessage " \n") 5])
    (newWorld []) "Hi" (response (textMessage " \n") 5) { Message := textMessage " \n" } []
    rfl rfl rfl
  ⟨rfl, rfl, rfl, h.1, h.2.2.1⟩

/-- C3. On a question for which the model asked for tool calls, with the tool phase and the
follow-up call completed: when the text of the follow-up response is empty or white space
only, the answer is the fixed fallback text; otherwise it is that text unchanged. -/
theorem Chat_fallback_substitution (env : Env) (w : World) (question : String)
    (resp : ChatCompletionResponse) (choice : ChatCompletionChoice)
    (rest : List ChatCompletionChoice) (w4 : World)
    (resp2 : ChatCompletionResponse) (choice2 : ChatCompletionChoice)
    (rest2 : List ChatCompletionChoice)
    (hresp : env.CreateChatCompletion w.trace
      (chatRequest (w.dialogue ++ [userMessage question])) = .ok resp)
    (hchoice : resp.Choices = choice :: rest)
    (htools : choice.Message.ToolCalls ≠ [])
    (hrun : runTools env (afterFirstCall w question choice.Message)
      choice.Message.ToolCalls = .ok () w4)
    (hresp2 : env.CreateChatCompletion w4.trace (chatRequest w4.dialogue) = .ok resp2)
    (hchoice2 : resp2.Choices = choice2 :: rest2) :
    (isBlank choice2.Message.Content = true →
      Chat env w question =
        .ok "I found some information but couldn't formulate a response. Please try again."
          (Chat env w question).world) ∧
    (isBlank choice2.Message.Content = false →
      Chat env w question = .ok choice2.Message.Content (Chat env w question).world) := by
  rw [Chat_tool_path env w question resp choice rest w4 resp2 choice2 rest2 hresp hchoice
    htools hrun hresp2 hchoice2]
  constructor
  · intro hb
    rw [if_pos ((TrimSpace_eq_empty_iff _).2 hb)]
    rfl
  · intro hb
    rw [if_neg]
    · rfl
    · intro h
      rw [(TrimSpace_eq_empty_iff _).1 h] at hb
      exact Bool.noConfusion hb

theorem Chat_fallback_substitution_witness :
    (toolCallMessage [goodCall]).ToolCalls ≠ [] ∧
    isBlank (textMessage " \n").Content = true ∧
    Chat envBlankFollowUp sampleWorld sampleQuestion =
      .ok "I found some information but couldn't formulate a response. Please try again."
        (Chat envBlankFollowUp sampleWorld sampleQuestion).world :=
  ⟨by decide, rfl,
    (Chat_fallback_substitution envBlankFollowUp sampleWorld sampleQuestion
      (response (toolCallMessage [goodCall]) 31) { Message := toolCallMessage [goodCall] } []
      (runTools envBlankFollowUp
        (afterFirstCall sampleWorld sampleQuestion (toolCallMessage [goodCall]))
        [goodCall]).world
      (response (textMessage " \n") 12) { Message := textMessage " \n" } []
      rfl rfl (by decide) rfl rfl rfl).1 rfl⟩

/-! ## Tool arguments -/

theorem runTools_append (env : Env) (pre post : List ToolCall) :
    ∀ (w wA : World) (u : Unit), runTools env w pre = .ok u wA →
      runTools env w (pre ++ post) = runTools env wA post := by
  induction pre with
  | nil =>
    intro w wA u h
    simp only [runTools, Res.ok.injEq] at h
    simp [h.2]
  | cons tc rest ih =>
    intro w wA u h
    rw [List.cons_append]
    cases hexec : executeTool env w tc with
    | fatal e w0 => simp [runTools, hexec] at h
    | panic e w0 => simp [runTools, hexec] at h
    | ok result w0 =>
      simp only [runTools, hexec] at h ⊢
      exact ih _ _ u h

theorem executeTool_not_string (env : Env) (w : World) (tc : ToolCall)
    (args : Option (List (String × Json)))
    (hparse : jsonUnmarshalMap tc.Function.Arguments = .ok args)
    (hquery : ∀ q, mapIndex args "query" ≠ some (.str q)) :
    executeTool env w tc = .panic "interface conversion: interface {} is not string" w := by
  unfold executeTool
  rw [hparse]
  simp only []

theorem Chat_tool_panic (env : Env) (w : World) (question : String)
    (resp : ChatCompletionResponse) (choice : ChatCompletionChoice)
    (rest : List ChatCompletionChoice) (e : String) (w4 : World)
    (hresp : env.CreateChatCompletion w.trace
      (chatRequest (w.dialogue ++ [userMessage question])) = .ok resp)
    (hchoice : resp.Choices = choice :: rest)
    (htools : choice.Message.ToolCalls ≠ [])
    (hrun : runTools env (afterFirstCall w question choice.Message)
      choice.Message.ToolCalls = .panic e w4) :
    Chat env w question = .panic e w4 := by
  have hlen : ¬ choice.Message.ToolCalls.length = 0 := by
    rw [List.length_eq_zero]; exact htools
  have hrun1 : runTools env
      { rows := w.rows, dialogue := w.dialogue ++ [userMessage question] ++ [choice.Message],
        instructorMap := w.instructorMap, subjectMap := w.subjectMap, stdout := w.stdout,
        trace := w.trace ++
          [Event.chatCompletion (chatRequest (w.dialogue ++ [userMessage question]))] }
      choice.Message.ToolCalls = .panic e w4 := by
    rw [← hrun]; simp [afterFirstCall]
  unfold Chat
  simp only [hresp, hchoice, hlen, if_false, hrun1]

/-- C1, on the code. The first response carries tool invocations and every outside call
made succeeds, but one invocation has arguments that parse without a string under `query`
(the invocations before it were executed). Then `Chat` panics in `executeTool`: it does
not return, and it made one model call only: there is no follow-up call. -/
theorem Chat_panics_before_follow_up (env : Env) (w : World) (question : String)
    (resp : ChatCompletionResponse) (choice : ChatCompletionChoice)
    (rest : List ChatCompletionChoice) (pre : List ToolCall) (tc : ToolCall)
    (post : List ToolCall) (args : Option (List (String × Json))) (wA : World)
    (hresp : env.CreateChatCompletion w.trace
      (chatRequest (w.dialogue ++ [userMessage question])) = .ok resp)
    (hchoice : resp.Choices = choice :: rest)
    (hcalls : choice.Message.ToolCalls = pre ++ tc :: post)
    (hpre : runTools env (afterFirstCall w question choice.Message) pre = .ok () wA)
    (hparse : jsonUnmarshalMap tc.Function.Arguments = .ok args)
    (hquery : ∀ q, mapIndex args "query" ≠ some (.str q)) :
    Chat env w question = .panic "interface conversion: interface {} is not string" wA ∧
    (Chat env w question).returned = false ∧
    modelCalls (Chat env w question).world.trace = modelCalls w.trace + 1 := by
  have hrun : runTools env (afterFirstCall w question choice.Message)
      choice.Message.ToolCalls =
        .panic "interface conversion: interface {} is not string" wA := by
    rw [hcalls, runTools_append env pre (tc :: post) _ wA () hpre]
    unfold runTools
    rw [executeTool_not_string env wA tc args hparse hquery]
  have htools : choice.Message.ToolCalls ≠ [] := by
    rw [hcalls]; simp
  obtain ⟨msgs, evs, hwA, -, hev⟩ := runTools_ok env pre _ _ () hpre
  rw [Chat_tool_panic env w question resp choice rest _ wA hresp hchoice htools hrun]
  refine ⟨rfl, rfl, ?_⟩
  simp only [Res.world, hwA, afterFirstCall, modelCalls_append, modelCalls_retrieval evs hev]
  simp [modelCalls, Event.isChat]

theorem Chat_panics_before_follow_up_witness :
    envEmptyObject.CreateChatCompletion sampleWorld.trace
      (chatRequest (sampleWorld.dialogue ++ [userMessage sampleQuestion])) =
        .ok (response (toolCallMessage [emptyObjectCall]) 31) ∧
    jsonUnmarshalMap emptyObjectCall.Function.Arguments = .ok (some []) ∧
    Chat envEmptyObject sampleWorld sampleQuestion =
      .panic "interface conversion: interface {} is not string"
        (afterFirstCall sampleWorld sampleQuestion (toolCallMessage [emptyObjectCall])) ∧
    (Chat envEmptyObject sampleWorld sampleQuestion).returned = false ∧
    modelCalls (Chat envEmptyObject sampleWorld sampleQuestion).world.trace =
      modelCalls sampleWorld.trace + 1 :=
  ⟨rfl, rfl,
    Chat_panics_before_follow_up envEmptyObject sampleWorld sampleQuestion
      (response (toolCallMessage [emptyObjectCall]) 31)
      { Message := toolCallMessage [emptyObjectCall] } [] [] emptyObjectCall [] (some [])
      (afterFirstCall sampleWorld sampleQuestion (toolCallMessage [emptyObjectCall]))
      rfl rfl rfl rfl rfl (by intro q h; simp [mapIndex] at h)⟩

/-- C5, on the code. Whenever the arguments of an invocation parse but hold no string
under `query` (no such key, a value of another kind, or the arguments are `null`),
`executeTool` panics: it does not return, so it yields no tool-result string, and the tool
loop that executes the invocation panics with it. -/
theorem executeTool_panics_without_string_query (env : Env) (w : World) (tc : ToolCall)
    (rest : List ToolCall) (args : Option (List (String × Json)))
    (hparse : jsonUnmarshalMap tc.Function.Arguments = .ok args)
    (hquery : ∀ q, mapIndex args "query" ≠ some (.str q)) :
    executeTool env w tc = .panic "interface conversion: interface {} is not string" w ∧
    (executeTool env w tc).returned = false ∧
    runTools env w (tc :: rest) =
      .panic "interface conversion: interface {} is not string" w := by
  have h := executeTool_not_string env w tc args hparse hquery
  refine ⟨h, by rw [h]; rfl, ?_⟩
  unfold runTools
  rw [h]

theorem executeTool_panics_without_string_query_witness :
    jsonUnmarshalMap emptyObjectCall.Function.Arguments = .ok (some []) ∧
    executeTool envEmptyObject sampleWorld emptyObjectCall =
      .panic "interface conversion: interface {} is not string" sampleWorld ∧
    executeTool envEmptyObject sampleWorld (searchCall "call_4" "\x7b\"query\": true\x7d") =
      .panic "interface conversion: interface {} is not string" sampleWorld ∧
    executeTool envEmptyObject sampleWorld (searchCall "call_5" "null") =
      .panic "interface conversion: interface {} is not string" sampleWorld ∧
    executeTool envEmptyObject sampleWorld
        (searchCall "call_6" "\x7b\"query\": [\"Philip Peterson\"]\x7d") =
      .panic "interface conversion: interface {} is not string" sampleWorld :=
  ⟨rfl,
    (executeTool_panics_without_string_query envEmptyObject sampleWorld emptyObjectCall []
      (some []) rfl (by intro q h; simp [mapIndex] at h)).1,
    rfl, rfl, rfl⟩

theorem executeTool_parse_error (env : Env) (w : World) (tc : ToolCall) (e : String)
    (hparse : jsonUnmarshalMap tc.Function.Arguments = .error e) :
    executeTool env w tc = .ok "Error parsing arguments" w := by
  unfold executeTool
  rw [hparse]

/-- C4. An invocation whose arguments do not parse makes `executeTool` return the text
"Error parsing arguments" in an unchanged world (no call to the retriever). In `Chat`, once
the invocations before it are done, its tool-result turn with that text is appended and the
loop goes on; when the remaining invocations and the follow-up call complete, `Chat`
returns, and the follow-up call was sent the dialogue holding that turn. -/
theorem Chat_recovers_from_parse_error (env : Env) (w : World) (question : String)
    (resp : ChatCompletionResponse) (choice : ChatCompletionChoice)
    (rest : List ChatCompletionChoice) (pre : List ToolCall) (tc : ToolCall)
    (post : List ToolCall) (e : String) (wA wB : World)
    (resp2 : ChatCompletionResponse) (choice2 : ChatCompletionChoice)
    (rest2 : List ChatCompletionChoice)
    (hparse : jsonUnmarshalMap tc.Function.Arguments = .error e)
    (hresp : env.CreateChatCompletion w.trace
      (chatRequest (w.dialogue ++ [userMessage question])) = .ok resp)
    (hchoice : resp.Choices = choice :: rest)
    (hcalls : choice.Message.ToolCalls = pre ++ tc :: post)
    (hpre : runTools env (afterFirstCall w question choice.Message) pre = .ok () wA)
    (hpost : runTools env
      { wA with dialogue := wA.dialogue ++ [toolMessage tc "Error parsing arguments"] }
      post = .ok () wB)
    (hresp2 : env.CreateChatCompletion wB.trace (chatRequest wB.dialogue) = .ok resp2)
    (hchoice2 : resp2.Choices = choice2 :: rest2) :
    (∀ w0, executeTool env w0 tc = .ok "Error parsing arguments" w0) ∧
    (∃ later, wB.dialogue =
      wA.dialogue ++ toolMessage tc "Error parsing arguments" :: later) ∧
    (Chat env w question).returned = true ∧
    (Chat env w question).world.dialogue = wB.dialogue ++ [choice2.Message] ∧
    (Chat env w question).world.trace =
      wB.trace ++ [Event.chatCompletion (chatRequest wB.dialogue)] := by
  have hexec := fun w0 => executeTool_parse_error env w0 tc e hparse
  have hrun : runTools env (afterFirstCall w question choice.Message)
      choice.Message.ToolCalls = .ok () wB := by
    rw [hcalls, runTools_append env pre (tc :: post) _ wA () hpre]
    unfold runTools
    simp only [hexec]
    exact hpost
  have htools : choice.Message.ToolCalls ≠ [] := by
    rw [hcalls]; simp
  obtain ⟨msgs, evs, hwB, -, -⟩ := runTools_ok env post _ _ () hpost
  rw [Chat_tool_path env w question resp choice rest wB resp2 choice2 rest2 hresp hchoice
    htools hrun hresp2 hchoice2]
  refine ⟨hexec, ⟨msgs, ?_⟩, ?_, rfl, rfl⟩
  · rw [hwB]; simp
  · split <;> rfl

theorem Chat_recovers_from_parse_error_witness :
    jsonUnmarshalMap garbledCall.Function.Arguments =
      .error "invalid character or unexpected end of JSON input" ∧
    (toolCallMessage [garbledCall, goodCall]).ToolCalls = [] ++ garbledCall :: [goodCall] ∧
    executeTool envGarbled sampleWorld garbledCall = .ok "Error parsing arguments" sampleWorld ∧
    (Chat envGarbled sampleWorld sampleQuestion).returned = true ∧
    toolMessage garbledCall "Error parsing arguments" ∈
      (Chat envGarbled sampleWorld sampleQuestion).world.dialogue :=
  have h := Chat_recovers_from_parse_error envGarbled sampleWorld sampleQuestion
    (response (toolCallMessage [garbledCall, goodCall]) 31)
    { Message := toolCallMessage [garbledCall, goodCall] } [] [] garbledCall [goodCall]
    "invalid character or unexpected end of JSON input"
    (afterFirstCall sampleWorld sampleQuestion (toolCallMessage [garbledCall, goodCall]))
    (runTools envGarbled
      { afterFirstCall sampleWorld sampleQuestion (toolCallMessage [garbledCall, goodCall]) with
        dialogue :=
          (afterFirstCall sampleWorld sampleQuestion
            (toolCallMessage [garbledCall, goodCall])).dialogue ++
            [toolMessage garbledCall "Error parsing arguments"] }
      [goodCall]).world
    (response (textMessage "Philip Peterson teaches CS 272.") 12)
    { Message := textMessage "Philip Peterson teaches CS 272." } []
    rfl rfl rfl rfl rfl rfl rfl rfl
  ⟨rfl, rfl, h.1 sampleWorld, h.2.2.1, by
    obtain ⟨later, hl⟩ := h.2.1
    rw [h.2.2.2.1, hl]
    simp⟩

/-! ## The dialogue only grows -/

theorem chat_not_mem_retrieval (evs : List Event) (h : ∀ e ∈ evs, e.isRetrieval = true)
    (req : ChatCompletionRequest) : Event.chatCompletion req ∉ evs := by
  intro hmem
  have := h _ hmem
  simp [Event.isRetrieval] at this

/-- What `Chat` leaves behind, however it ends: the dialogue is the old one, the question
and further turns; the trace is the old one, the first model call on the old dialogue with
the question, and further calls; every further model call was sent a dialogue that extends
the first one and is the final dialogue up to at most its own answer. -/
theorem Chat_world (env : Env) (w : World) (question : String) :
    ∃ turns evs,
      (Chat env w question).world.dialogue = w.dialogue ++ userMessage question :: turns ∧
      (Chat env w question).world.trace =
        w.trace ++ Event.chatCompletion (chatRequest (w.dialogue ++ [userMessage question]))
          :: evs ∧
      ∀ req, Event.chatCompletion req ∈ evs →
        ∃ d tail, req = chatRequest d ∧ (w.dialogue ++ [userMessage question]) <+: d ∧
          (Chat env w question).world.dialogue = d ++ tail ∧ tail.length ≤ 1 := by
  unfold Chat
  simp only []
  split
  · exact ⟨[], [], by simp [Res.world], by simp [Res.world], by simp⟩
  · rename_i resp hresp
    split
    · exact ⟨[], [], by simp [Res.world], by simp [Res.world], by simp⟩
    · rename_i choice rest hchoice
      split
      · exact ⟨[choice.Message], [], by simp [Res.world], by simp [Res.world], by simp⟩
      · obtain ⟨msgs, evs1, hw, hev⟩ := runTools_world env choice.Message.ToolCalls
          { rows := w.rows, dialogue := w.dialogue ++ [userMessage question] ++ [choice.Message],
            instructorMap := w.instructorMap, subjectMap := w.subjectMap, stdout := w.stdout,
            trace := w.trace ++
              [Event.chatCompletion (chatRequest (w.dialogue ++ [userMessage question]))] }
        split
        · rename_i e w4 hrun
          rw [hrun] at hw
          simp only [Res.world] at hw ⊢
          refine ⟨choice.Message :: msgs, evs1, by simp [hw], by simp [hw], ?_⟩
          intro req hreq
          exact absurd hreq (chat_not_mem_retrieval evs1 hev req)
        · rename_i e w4 hrun
          rw [hrun] at hw
          simp only [Res.world] at hw ⊢
          refine ⟨choice.Message :: msgs, evs1, by simp [hw], by simp [hw], ?_⟩
          intro req hreq
          exact absurd hreq (chat_not_mem_retrieval evs1 hev req)
        · rename_i u w4 hrun
          rw [hrun] at hw
          simp only [Res.world] at hw
          have hd : w4.dialogue = w.dialogue ++ userMessage question :: choice.Message :: msgs := by
            simp [hw]
          have ht : w4.trace = w.trace ++
              Event.chatCompletion (chatRequest (w.dialogue ++ [userMessage question])) :: evs1 := by
            simp [hw]
          have hpre : (w.dialogue ++ [userMessage question]) <+: w4.dialogue := by
            rw [hd]
            exact ⟨choice.Message :: msgs, by simp⟩
          have hmem : ∀ req, Event.chatCompletion req ∈
              evs1 ++ [Event.chatCompletion (chatRequest w4.dialogue)] →
              req = chatRequest w4.dialogue := by
            intro req hreq
            rcases List.mem_append.1 hreq with h | h
            · exact absurd h (chat_not_mem_retrieval evs1 hev req)
            · simpa using h
          split
          · refine ⟨choice.Message :: msgs, evs1 ++ [Event.chatCompletion (chatRequest w4.dialogue)],
              by simp [Res.world, hd], by simp [Res.world, ht], ?_⟩
            intro req hreq
            exact ⟨w4.dialogue, [], hmem req hreq, hpre, by simp [Res.world], by simp⟩
          · split
            · refine ⟨choice.Message :: msgs,
                evs1 ++ [Event.chatCompletion (chatRequest w4.dialogue)],
                by simp [Res.world, hd], by simp [Res.world, ht], ?_⟩
              intro req hreq
              exact ⟨w4.dialogue, [], hmem req hreq, hpre, by simp [Res.world], by simp⟩
            · rename_i choice2 rest2 hchoice2
              refine ⟨choice.Message :: (msgs ++ [choice2.Message]),
                evs1 ++ [Event.chatCompletion (chatRequest w4.dialogue)], ?_, ?_, ?_⟩
              · split <;> simp [Res.world, hd]
              · split <;> simp [Res.world, ht]
              · intro req hreq
                refine ⟨w4.dialogue, [choice2.Message], hmem req hreq, hpre, ?_, by simp⟩
                split <;> simp [Res.world]

/-- C6. `Chat` only appends to the dialogue: the dialogue before the call is a prefix of the
dialogue after it, however the call ends. Every model call is sent, as the `Messages` of
its request, the whole dialogue of that moment: the first one the old dialogue with the
question, any later one a dialogue that extends it and that only the answer to that call
can follow. Hence, after a question that was answered, the `Messages` of the first model
call of the next question are every turn of the first question, in order, followed by the
new question. -/
theorem Chat_dialogue_append_only (env : Env) (w : World) (question : String) :
    w.dialogue <+: (Chat env w question).world.dialogue ∧
    (∃ req evs,
      (Chat env w question).world.trace = w.trace ++ Event.chatCompletion req :: evs ∧
      req.Messages = w.dialogue ++ [userMessage question] ∧
      ∀ req2, Event.chatCompletion req2 ∈ evs →
        (w.dialogue ++ [userMessage question]) <+: req2.Messages ∧
        ∃ tail, (Chat env w question).world.dialogue = req2.Messages ++ tail ∧
          tail.length ≤ 1) ∧
    (∀ answer w1 question2, Chat env w question = .ok answer w1 →
      ∃ turns req evs, w1.dialogue = w.dialogue ++ userMessage question :: turns ∧
        (Chat env w1 question2).world.trace = w1.trace ++ Event.chatCompletion req :: evs ∧
        req.Messages =
          w.dialogue ++ userMessage question :: turns ++ [userMessage question2]) := by
  obtain ⟨turns, evs, hd, ht, hreq⟩ := Chat_world env w question
  refine ⟨?_, ⟨_, evs, ht, rfl, ?_⟩, ?_⟩
  · rw [hd]; exact List.prefix_append _ _
  · intro req2 hmem
    obtain ⟨d, tail, hd2, hpre, hfin, hlen⟩ := hreq req2 hmem
    have hm : req2.Messages = d := by rw [hd2]; rfl
    rw [hm]
    exact ⟨hpre, tail, hfin, hlen⟩
  · intro answer w1 question2 hok
    rw [hok] at hd
    simp only [Res.world] at hd
    obtain ⟨-, evs2, -, ht2, -⟩ := Chat_world env w1 question2
    refine ⟨turns, _, evs2, hd, ht2, ?_⟩
    rw [hd]
    rfl

theorem Chat_dialogue_append_only_witness :
    Chat envTwoQuestions sampleWorld sampleQuestion =
      .ok "Philip Peterson teaches CS 272."
        (Chat envTwoQuestions sampleWorld sampleQuestion).world ∧
    (Chat envTwoQuestions sampleWorld sampleQuestion).world.dialogue.map
      ChatCompletionMessage.Role = ["system", "user", "assistant", "tool", "assistant"] ∧
    ((Chat envTwoQuestions (Chat envTwoQuestions sampleWorld sampleQuestion).world
        "What is his email address?").world.trace.map Event.chatMessages).getLast? =
      some ((Chat envTwoQuestions sampleWorld sampleQuestion).world.dialogue ++
        [userMessage "What is his email address?"]) ∧
    ∃ turns req evs,
      (Chat envTwoQuestions sampleWorld sampleQuestion).world.dialogue =
        sampleWorld.dialogue ++ userMessage sampleQuestion :: turns ∧
      (Chat envTwoQuestions (Chat envTwoQuestions sampleWorld sampleQuestion).world
          "What is his email address?").world.trace =
        (Chat envTwoQuestions sampleWorld sampleQuestion).world.trace ++
          Event.chatCompletion req :: evs ∧
      req.Messages = sampleWorld.dialogue ++
        userMessage sampleQuestion :: turns ++ [userMessage "What is his email address?"] :=
  ⟨rfl, rfl, rfl,
    (Chat_dialogue_append_only envTwoQuestions sampleWorld sampleQuestion).2.2
      "Philip Peterson teaches CS 272."
      (Chat envTwoQuestions sampleWorld sampleQuestion).world
      "What is his email address?" rfl⟩

/-! ## Tool-result turns -/

/-- C7, amended. When the first response carries n >= 1 invocations and the tool phase and
the follow-up call complete, `Chat` returns and the dialogue grew by exactly n + 3 turns:
the question, the response, n tool-result turns and the final response. The i-th
tool-result turn carries the id and the name of the i-th invocation; its content is the
lines `Query` returned for the string under `query`, joined by newlines, when the
arguments parse, and the text "Error parsing arguments" when they do not. -/
theorem Chat_tool_result_turns (env : Env) (w : World) (question : String)
    (resp : ChatCompletionResponse) (choice : ChatCompletionChoice)
    (rest : List ChatCompletionChoice) (w4 : World)
    (resp2 : ChatCompletionResponse) (choice2 : ChatCompletionChoice)
    (rest2 : List ChatCompletionChoice)
    (hresp : env.CreateChatCompletion w.trace
      (chatRequest (w.dialogue ++ [userMessage question])) = .ok resp)
    (hchoice : resp.Choices = choice :: rest)
    (htools : choice.Message.ToolCalls ≠ [])
    (hrun : runTools env (afterFirstCall w question choice.Message)
      choice.Message.ToolCalls = .ok () w4)
    (hresp2 : env.CreateChatCompletion w4.trace (chatRequest w4.dialogue) = .ok resp2)
    (hchoice2 : resp2.Choices = choice2 :: rest2) :
    ∃ msgs,
      (Chat env w question).returned = true ∧
      (Chat env w question).world.dialogue =
        w.dialogue ++ [userMessage question, choice.Message] ++ msgs ++ [choice2.Message] ∧
      List.Forall₂ (IsToolTurn env (afterFirstCall w question choice.Message))
        choice.Message.ToolCalls msgs ∧
      msgs.length = choice.Message.ToolCalls.length ∧
      (Chat env w question).world.dialogue.length =
        w.dialogue.length + (choice.Message.ToolCalls.length + 3) := by
  obtain ⟨msgs, evs, hw4, hall, -⟩ := runTools_ok env _ _ _ () hrun
  have hlen : msgs.length = choice.Message.ToolCalls.length := hall.length_eq.symm
  rw [Chat_tool_path env w question resp choice rest w4 resp2 choice2 rest2 hresp hchoice
    htools hrun hresp2 hchoice2]
  have hd : w4.dialogue = w.dialogue ++ [userMessage question, choice.Message] ++ msgs := by
    rw [hw4]; simp [afterFirstCall]
  refine ⟨msgs, ?_, ?_, hall, hlen, ?_⟩
  · split <;> rfl
  · split <;> simp [Res.world, hd]
  · split <;> simp [Res.world, hd, hlen]

theorem Chat_tool_result_turns_witness :
    (toolCallMessage [garbledCall, goodCall]).ToolCalls ≠ [] ∧
    ∃ msgs,
      (Chat envGarbled sampleWorld sampleQuestion).returned = true ∧
      (Chat envGarbled sampleWorld sampleQuestion).world.dialogue =
        sampleWorld.dialogue ++
          [userMessage sampleQuestion, toolCallMessage [garbledCall, goodCall]] ++ msgs ++
          [textMessage "Philip Peterson teaches CS 272."] ∧
      List.Forall₂
        (IsToolTurn envGarbled
          (afterFirstCall sampleWorld sampleQuestion (toolCallMessage [garbledCall, goodCall])))
        [garbledCall, goodCall] msgs ∧
      msgs.length = 2 ∧
      (Chat envGarbled sampleWorld sampleQuestion).world.dialogue.length = 1 + (2 + 3) :=
  ⟨by decide,
    Chat_tool_result_turns envGarbled sampleWorld sampleQuestion
      (response (toolCallMessage [garbledCall, goodCall]) 31)
      { Message := toolCallMessage [garbledCall, goodCall] } []
      (runTools envGarbled
        (afterFirstCall sampleWorld sampleQuestion (toolCallMessage [garbledCall, goodCall]))
        [garbledCall, goodCall]).world
      (response (textMessage "Philip Peterson teaches CS 272.") 12)
      { Message := textMessage "Philip Peterson teaches CS 272." } []
      rfl rfl (by decide) rfl rfl rfl⟩

set_option maxRecDepth 8000 in
/-- C7 as stated fails. The first response carries one invocation whose arguments are not
JSON; `Chat` completes, and the content of the tool-result turn is the text
"Error parsing arguments": the retriever was never called (no retrieval call is in the
trace), and the lines it returns for the text the invocation was about are other ones. -/
theorem Chat_garbled_turn_not_retrieved :
    Chat envGarbledOnly sampleWorld sampleQuestion =
      .ok "I could not search the catalog."
        (Chat envGarbledOnly sampleWorld sampleQuestion).world ∧
    (Chat envGarbledOnly sampleWorld sampleQuestion).world.dialogue =
      sampleWorld.dialogue ++
        [userMessage sampleQuestion, toolCallMessage [garbledCall],
         toolMessage garbledCall "Error parsing arguments",
         textMessage "I could not search the catalog."] ∧
    (Chat envGarbledOnly sampleWorld sampleQuestion).world.trace.any Event.isRetrieval = false ∧
    Query envGarbledOnly sampleWorld "Philip Peterson" =
      .ok [rowCS315.plain, rowCS272.plain]
        (Query envGarbledOnly sampleWorld "Philip Peterson").world ∧
    Join [rowCS315.plain, rowCS272.plain] "\n" ≠ "Error parsing arguments" :=
  ⟨rfl, rfl, rfl, rfl, by decide⟩

/-! ## The retriever -/

theorem selectNearest_spec (env : Env) (rows : List Row) (b : Blob) :
    (∃ sorted : List Row, sorted.Perm rows ∧
      sorted.Sorted (fun r s => rowDistance env b r ≤ rowDistance env b s) ∧
      selectNearest env rows b = sorted.take 3) ∧
    (selectNearest env rows b).Sorted (fun r s => rowDistance env b r ≤ rowDistance env b s) ∧
    (selectNearest env rows b).length ≤ 3 ∧
    (selectNearest env rows b).length ≤ rows.length := by
  have htotal : IsTotal Row (fun r s => rowDistance env b r ≤ rowDistance env b s) :=
    ⟨fun r s => le_total _ _⟩
  have htrans : IsTrans Row (fun r s => rowDistance env b r ≤ rowDistance env b s) :=
    ⟨fun r s t h1 h2 => le_trans h1 h2⟩
  have hsorted := List.sorted_insertionSort
    (fun r s => rowDistance env b r ≤ rowDistance env b s) rows
  have hperm := List.perm_insertionSort
    (fun r s => rowDistance env b r ≤ rowDistance env b s) rows
  refine ⟨⟨_, hperm, hsorted, rfl⟩, ?_, ?_, ?_⟩
  · exact List.Pairwise.sublist (List.take_sublist _ _) hsorted
  · simp [selectNearest]
  · unfold selectNearest
    rw [List.length_take, List.length_insertionSort]
    exact Nat.min_le_right _ _

/-- C8. When the embedding of the query is obtained (`b` is its first blob) and the SQL
query does not fail, `Query` returns exactly the `plain` texts of its hits. The hits are
the first three rows of the table put in non-decreasing order of distance to `b`: they are
in non-decreasing order of distance, at most 3, and at most as many as the stored rows. The
store is left unchanged. -/
theorem Query_returns_nearest_three (env : Env) (w : World) (p : String)
    (data : List Embedding) (b : Blob) (bs : List Blob)
    (hemb : env.CreateEmbeddings w.trace { Input := [p], Model := LargeEmbedding3 } = .ok data)
    (hser : serializeLoop env data [] = .ok (b :: bs))
    (hquery : env.queryError
      (w.trace ++ [Event.embeddings { Input := [p], Model := LargeEmbedding3 }]) b = none) :
    ∃ hits : List Row,
      Query env w p = .ok (hits.map Row.plain) (Query env w p).world ∧
      (∃ sorted : List Row, sorted.Perm w.rows ∧
        sorted.Sorted (fun r s => rowDistance env b r ≤ rowDistance env b s) ∧
        hits = sorted.take 3) ∧
      hits.Sorted (fun r s => rowDistance env b r ≤ rowDistance env b s) ∧
      hits.length ≤ 3 ∧ hits.length ≤ w.rows.length ∧
      (Query env w p).world.rows = w.rows := by
  obtain ⟨h1, h2, h3, h4⟩ := selectNearest_spec env w.rows b
  refine ⟨selectNearest env w.rows b, ?_, h1, h2, h3, h4, ?_⟩ <;>
    simp [Query, CreateBlob, BlobInput.inputs, hemb, hser, hquery, Res.world]

theorem Query_returns_nearest_three_witness :
    ∃ hits : List Row,
      Query envTwoQuestions (newWorld [rowCS272, rowMATH109, rowCS315, rowBIO105])
          "Philip Peterson" =
        .ok (hits.map Row.plain)
          (Query envTwoQuestions (newWorld [rowCS272, rowMATH109, rowCS315, rowBIO105])
            "Philip Peterson").world ∧
      (∃ sorted : List Row, sorted.Perm (newWorld [rowCS272, rowMATH109, rowCS315, rowBIO105]).rows ∧
        sorted.Sorted (fun r s =>
          rowDistance envTwoQuestions [15, 0, 0, 0] r ≤
            rowDistance envTwoQuestions [15, 0, 0, 0] s) ∧
        hits = sorted.take 3) ∧
      hits.Sorted (fun r s =>
        rowDistance envTwoQuestions [15, 0, 0, 0] r ≤
          rowDistance envTwoQuestions [15, 0, 0, 0] s) ∧
      hits.length ≤ 3 ∧
      hits.length ≤ (newWorld [rowCS272, rowMATH109, rowCS315, rowBIO105]).rows.length ∧
      (Query envTwoQuestions (newWorld [rowCS272, rowMATH109, rowCS315, rowBIO105])
        "Philip Peterson").world.rows =
        (newWorld [rowCS272, rowMATH109, rowCS315, rowBIO105]).rows :=
  Query_returns_nearest_three envTwoQuestions
    (newWorld [rowCS272, rowMATH109, rowCS315, rowBIO105]) "Philip Peterson"
    [[15]] [15, 0, 0, 0] [] rfl rfl rfl

/-! ## Ingestion -/

theorem rowLoop_stops (idx : String → Option Nat) (n : Nat) (hn : 0 < n)
    (short : List String) (post : List (List String)) (hshort : short.length ≠ n)
    (pre : List (List String)) :
    ∀ (st : Ingest), (∀ r ∈ pre, r.length = n) →
      rowLoop idx (pre ++ short :: post) (n : Int) st = rowLoop idx pre (n : Int) st := by
  induction pre with
  | nil =>
    intro st _
    have herr : readError (n : Int) short = some "wrong number of fields" := by
      unfold readError
      rw [if_pos]
      exact ⟨by exact_mod_cast hn, by exact_mod_cast hshort⟩
    simp [rowLoop, herr]
  | cons r rest ih =>
    intro st hpre
    have hr : r.length = n := hpre r (List.mem_cons_self _ _)
    have hrest : ∀ x ∈ rest, x.length = n := fun x hx => hpre x (List.mem_cons_of_mem _ hx)
    have herr : readError (n : Int) r = none := by
      unfold readError
      rw [if_neg]
      rw [hr]
      simp
    have hnext : nextFieldsPerRecord (n : Int) r = (n : Int) := by
      unfold nextFieldsPerRecord
      rw [if_neg]
      exact_mod_cast (Nat.pos_iff_ne_zero.1 hn)
    rw [List.cons_append]
    unfold rowLoop
    simp only [herr, hnext]
    split
    · exact ih _ hrest
    · exact ih _ hrest

/-- C9, on the code. When a record has another number of fields than the header (so when
it lacks the field of a required column at the end), `load_csv` does not skip it and go
on: the read error ends the row loop, and the result is that of the file cut before that
record. The records after it are never ingested. -/
theorem load_csv_stops_at_short_record (env : Env) (w : World) (header : List String)
    (pre : List (List String)) (short : List String) (post : List (List String))
    (hheader : header ≠ [])
    (hpre : ∀ r ∈ pre, r.length = header.length)
    (hshort : short.length ≠ header.length) :
    load_csv env (some (header :: (pre ++ short :: post))) w =
      load_csv env (some (header :: pre)) w := by
  have hn : 0 < header.length := List.length_pos.2 hheader
  have hfpr : nextFieldsPerRecord 0 header = (header.length : Int) := by
    simp [nextFieldsPerRecord]
  unfold load_csv
  simp only [hfpr, rowLoop_stops (headerIndex header) header.length hn short post hshort pre _
    hpre]

theorem load_csv_stops_at_short_record_witness :
    recordNoRoom.length ≠ sampleHeader.length ∧
    load_csv envTwoQuestions
        (some (sampleHeader :: ([recordCS272] ++ recordNoRoom :: [recordCS315]))) (newWorld []) =
      load_csv envTwoQuestions (some (sampleHeader :: [recordCS272])) (newWorld []) ∧
    (load_csv envTwoQuestions
      (some [sampleHeader, recordCS272, recordNoRoom, recordCS315])
      (newWorld [])).world.rows.map Row.id = [1] ∧
    (load_csv envTwoQuestions
      (some [sampleHeader, recordNoRoom, recordCS272, recordCS315])
      (newWorld [])).world.rows = [] ∧
    (load_csv envTwoQuestions
      (some [sampleHeader, recordCS272, recordCS315, recordNoRoom])
      (newWorld [])).world.rows.map Row.id = [1, 2] :=
  ⟨by decide,
    load_csv_stops_at_short_record envTwoQuestions (newWorld []) sampleHeader [recordCS272]
      recordNoRoom [recordCS315] (by decide) (by decide) (by decide),
    rfl, rfl, rfl⟩

theorem serializeLoop_spec (env : Env) (hser : ∀ v, ∃ b, env.SerializeFloat32 v = .ok b)
    (data : List Embedding) :
    ∀ acc, ∃ blobs, serializeLoop env data acc = .ok (acc ++ blobs) ∧
      List.Forall₂ (fun v b => env.SerializeFloat32 v = .ok b) data blobs := by
  induction data with
  | nil =>
    intro acc
    exact ⟨[], by simp [serializeLoop], List.Forall₂.nil⟩
  | cons v rest ih =>
    intro acc
    obtain ⟨b, hb⟩ := hser v
    obtain ⟨blobs, h1, h2⟩ := ih (acc ++ [b])
    refine ⟨b :: blobs, ?_, List.Forall₂.cons hb h2⟩
    simp [serializeLoop, hb, h1]

theorem insertLoop_spec (env : Env) (hexec : ∀ t i p b, env.execError t i p b = none)
    (batch : List String) (blobs : List Blob) :
    ∀ (j rowid : Nat) (w : World), j + blobs.length ≤ batch.length →
      insertLoop env batch blobs j rowid w =
        .ok (rowid + blobs.length)
          { w with
            rows := w.rows ++ putsOf rowid (batch.drop j) blobs,
            trace := w.trace ++ (putsOf rowid (batch.drop j) blobs).map Row.exec } := by
  induction blobs with
  | nil =>
    intro j rowid w _
    cases hd : batch.drop j <;> simp [insertLoop, putsOf]
  | cons blob rest ih =>
    intro j rowid w hj
    simp only [List.length_cons] at hj
    have hlt : j < batch.length := by omega
    have hdrop : batch.drop j = batch[j] :: batch.drop (j + 1) := List.drop_eq_getElem_cons hlt
    have hget : batch[j]? = some batch[j] := List.getElem?_eq_getElem hlt
    unfold insertLoop
    simp only [hget, InsertBlob, hexec]
    rw [ih (j + 1) (rowid + 1) _ (by omega), hdrop]
    simp [putsOf, Row.exec, Nat.add_assoc, Nat.add_comm 1]

theorem putsOf_ids (ls : List String) :
    ∀ (rowid : Nat) (blobs : List Blob), blobs.length = ls.length →
      (putsOf rowid ls blobs).map Row.id = List.range' rowid ls.length ∧
      (putsOf rowid ls blobs).map Row.plain = ls ∧
      (putsOf rowid ls blobs).map Row.embedding = blobs := by
  induction ls with
  | nil =>
    intro rowid blobs h
    cases blobs with
    | nil => simp [putsOf]
    | cons b bs => simp at h
  | cons l rest ih =>
    intro rowid blobs h
    cases blobs with
    | nil => simp at h
    | cons b bs =>
      simp only [List.length_cons, Nat.add_right_cancel_iff] at h
      obtain ⟨h1, h2, h3⟩ := ih (rowid + 1) bs h
      simp [putsOf, h1, h2, h3, List.range'_succ]

theorem putsOf_getElem? (ls : List String) :
    ∀ (rowid : Nat) (blobs : List Blob) (m : Nat) (r : Row),
      (putsOf rowid ls blobs)[m]? = some r →
      ls[m]? = some r.plain ∧ blobs[m]? = some r.embedding := by
  induction ls with
  | nil =>
    intro rowid blobs m r h
    simp [putsOf] at h
  | cons l rest ih =>
    intro rowid blobs m r h
    cases blobs with
    | nil => simp [putsOf] at h
    | cons b bs =>
      cases m with
      | zero =>
        simp only [putsOf, List.getElem?_cons_zero, Option.some.injEq] at h
        simp [← h]
      | succ m =>
        simp only [putsOf, List.getElem?_cons_succ] at h
        simpa using ih (rowid + 1) bs m r h

theorem execRows_append (t u : List Event) : execRows (t ++ u) = execRows t ++ execRows u := by
  simp [execRows, List.filterMap_append]

theorem execRows_map_exec (puts : List Row) : execRows (puts.map Row.exec) = puts := by
  induction puts with
  | nil => rfl
  | cons r rest ih =>
    simp only [execRows, List.map_cons, List.filterMap_cons] at ih ⊢
    simp [Row.exec, Event.execRow, ih]

theorem gatewayCalls_append (t u : List Event) :
    gatewayCalls (t ++ u) = gatewayCalls t + gatewayCalls u := by
  simp [gatewayCalls, List.countP_append]

theorem gatewayCalls_map_exec (puts : List Row) : gatewayCalls (puts.map Row.exec) = 0 := by
  unfold gatewayCalls
  rw [List.countP_eq_zero]
  intro e he
  obtain ⟨r, -, rfl⟩ := List.mem_map.1 he
  simp [Row.exec, Event.isEmbedding]

theorem EmbeddedBy_mono (env : Env) (t u : List Event) (c j : Nat) (line : String)
    (blob : Blob) (h : EmbeddedBy env t c j line blob) :
    EmbeddedBy env (t ++ u) c j line blob := by
  obtain ⟨pos, req, data, v, h1, hc, h2, h3, h4, h5⟩ := h
  have hpos : pos < t.length := by
    by_contra hge
    rw [List.getElem?_eq_none (by omega)] at h1
    exact Option.noConfusion h1
  have htake : (t ++ u).take pos = t.take pos := List.take_append_of_le_length (by omega)
  refine ⟨pos, req, data, v, ?_, ?_, h2, ?_, h4, h5⟩
  · rw [List.getElem?_append_left hpos]; exact h1
  · rw [htake]; exact hc
  · rw [htake]; exact h3

theorem forall₂_getElem? {α β : Type} (R : α → β → Prop) (l1 : List α) (l2 : List β)
    (h : List.Forall₂ R l1 l2) :
    ∀ (j : Nat) (b : β), l2[j]? = some b → ∃ a, l1[j]? = some a ∧ R a b := by
  induction h with
  | nil =>
    intro j b hb
    simp at hb
  | cons hab _ ih =>
    intro j b hb
    cases j with
    | zero =>
      simp only [List.getElem?_cons_zero, Option.some.injEq] at hb
      exact ⟨_, by simp, hb ▸ hab⟩
    | succ j =>
      simp only [List.getElem?_cons_succ] at hb
      obtain ⟨a, h1, h2⟩ := ih j b hb
      exact ⟨a, by simpa using h1, h2⟩

/-- The batch loop, when the gateway answers every call with one vector per input and no
serialisation or insert fails: from the state `i`, `rowid` it stores the lines from `i` on
under the ids from `rowid` on, each with a blob the gateway computed for it, with one
gateway call per batch of 100 lines. -/
theorem batchLoop_spec (env : Env)
    (hgate : ∀ t req, ∃ data, env.CreateEmbeddings t req = .ok data ∧
      data.length = req.Input.length)
    (hser : ∀ v, ∃ b, env.SerializeFloat32 v = .ok b)
    (hexec : ∀ t i p b, env.execError t i p b = none)
    (lines : List String) (total : Nat) (htotal : lines.length = total) :
    ∀ (fuel i rowid : Nat) (w : World), total ≤ i + fuel * 100 →
      ∃ w1 puts evs, batchLoop env lines total fuel i rowid w = .ok () w1 ∧
        w1.rows = w.rows ++ puts ∧ w1.dialogue = w.dialogue ∧
        w1.instructorMap = w.instructorMap ∧ w1.subjectMap = w.subjectMap ∧
        w1.trace = w.trace ++ evs ∧ execRows evs = puts ∧
        gatewayCalls evs = (total - i + 99) / 100 ∧
        puts.map Row.id = List.range' rowid (total - i) ∧
        puts.map Row.plain = lines.drop i ∧
        (total ≤ i → evs = []) ∧
        ∀ (m : Nat) (r : Row), puts[m]? = some r →
          EmbeddedBy env w1.trace (gatewayCalls w.trace + m / 100) (m % 100)
            r.plain r.embedding := by
  intro fuel
  induction fuel with
  | zero =>
    intro i rowid w hle
    have h0 : total - i = 0 := by omega
    refine ⟨w, [], [], rfl, by simp, rfl, rfl, rfl, by simp, rfl, by simp [gatewayCalls, h0],
      by simp [h0], ?_, fun _ => rfl, by simp⟩
    rw [List.drop_eq_nil_of_le (by omega)]
    rfl
  | succ fuel ih =>
    intro i rowid w hle
    by_cases hi : i < total
    · -- one more batch
      have hlen : ((lines.drop i).take
          ((if i + batchSize > total then total else i + batchSize) - i)).length =
          min 100 (total - i) := by
        rw [List.length_take, List.length_drop, htotal]
        unfold batchSize
        split <;> omega
      generalize hbatch : (lines.drop i).take
          ((if i + batchSize > total then total else i + batchSize) - i) = batch at hlen
      obtain ⟨data, hdata, hdlen⟩ := hgate w.trace { Input := batch, Model := LargeEmbedding3 }
      obtain ⟨blobs, hblobs, hall⟩ := serializeLoop_spec env hser data []
      simp only [List.nil_append] at hblobs
      have hblen : blobs.length = batch.length := by
        rw [← hall.length_eq, hdlen]
      have hins := insertLoop_spec env hexec batch blobs 0 rowid
        { w with trace := w.trace ++ [Event.embeddings { Input := batch, Model := LargeEmbedding3 }] }
        (by omega)
      simp only [List.drop_zero] at hins
      obtain ⟨hid, hplain, -⟩ := putsOf_ids batch rowid blobs hblen
      obtain ⟨w1, puts, evs, hrun, hrows, hdia, him, hsm, htrace, hexecs, hcalls, hids, hplains,
          -, hemb⟩ :=
        ih (i + 100) (rowid + blobs.length)
          { rows := w.rows ++ putsOf rowid batch blobs, dialogue := w.dialogue,
            instructorMap := w.instructorMap, subjectMap := w.subjectMap,
            stdout := w.stdout ++
              [progressLine (if i + batchSize > total then total else i + batchSize) total],
            trace := w.trace ++ [Event.embeddings { Input := batch, Model := LargeEmbedding3 }] ++
              (putsOf rowid batch blobs).map Row.exec }
          (by omega)
      refine ⟨w1, putsOf rowid batch blobs ++ puts,
        Event.embeddings { Input := batch, Model := LargeEmbedding3 } ::
          ((putsOf rowid batch blobs).map Row.exec ++ evs), ?_, ?_, hdia, him, hsm, ?_, ?_, ?_,
        ?_, ?_, fun h => absurd hi (by omega), ?_⟩
      · unfold batchLoop
        simp only [hi, if_true, hbatch, CreateBlob, BlobInput.inputs, hdata, hblobs, hins]
        exact hrun
      · rw [hrows]; simp
      · rw [htrace]; simp
      · rw [← hexecs]
        simp [execRows, Event.execRow, List.filterMap_append]
        have := execRows_map_exec (putsOf rowid batch blobs)
        simpa [execRows] using this
      · have h1 := gatewayCalls_map_exec (putsOf rowid batch blobs)
        have h2 : gatewayCalls (Event.embeddings { Input := batch, Model := LargeEmbedding3 } ::
            ((putsOf rowid batch blobs).map Row.exec ++ evs)) =
            1 + (gatewayCalls ((putsOf rowid batch blobs).map Row.exec) + gatewayCalls evs) := by
          rw [← gatewayCalls_append]
          simp [gatewayCalls, Event.isEmbedding, Nat.add_comm]
        rw [h2, h1, hcalls]
        omega
      · rw [List.map_append, hid, hids, hblen, List.range'_append_1]
        congr 1
        omega
      · rw [List.map_append, hplain, hplains, ← hbatch]
        unfold batchSize
        split
        · have hnil : lines.drop (i + 100) = [] := List.drop_eq_nil_of_le (by omega)
          rw [hnil, List.append_nil, List.take_of_length_le]
          rw [List.length_drop]; omega
        · have h2 : lines.drop (i + 100) = (lines.drop i).drop 100 := by
            rw [List.drop_drop]
          rw [show i + 100 - i = 100 by omega, h2, List.take_append_drop]
      · intro m r hm
        have hplen : (putsOf rowid batch blobs).length = batch.length := by
          have := congrArg List.length hid
          simpa using this
        by_cases hlt : m < (putsOf rowid batch blobs).length
        · rw [List.getElem?_append_left hlt] at hm
          obtain ⟨hj1, hj2⟩ := putsOf_getElem? batch rowid blobs m r hm
          obtain ⟨v, hv1, hv2⟩ := forall₂_getElem? _ data blobs hall m _ hj2
          have hm100 : m < 100 := by omega
          rw [htrace, Nat.div_eq_of_lt hm100, Nat.mod_eq_of_lt hm100]
          have : EmbeddedBy env
              (w.trace ++ [Event.embeddings { Input := batch, Model := LargeEmbedding3 }])
              (gatewayCalls w.trace + 0) m r.plain r.embedding := by
            refine ⟨w.trace.length, { Input := batch, Model := LargeEmbedding3 }, data, v,
              by simp, ?_, hj1, ?_, hv1, hv2⟩
            · rw [List.take_left]; rfl
            · rw [List.take_left]
              exact hdata
          have h2 := EmbeddedBy_mono env _ ((putsOf rowid batch blobs).map Row.exec ++ evs) _ _ _ _
            this
          simpa using h2
        · rw [List.getElem?_append_right (by omega)] at hm
          have hne : 0 < puts.length := by
            by_contra h0
            rw [List.getElem?_eq_none (by omega)] at hm
            exact Option.noConfusion hm
          have hpl : puts.length = total - (i + 100) := by
            have := congrArg List.length hids
            simpa using this
          have hb100 : batch.length = 100 := by omega
          have h3 := hemb (m - (putsOf rowid batch blobs).length) r hm
          have hg : gatewayCalls (w.trace ++
              [Event.embeddings { Input := batch, Model := LargeEmbedding3 }] ++
              (putsOf rowid batch blobs).map Row.exec) = gatewayCalls w.trace + 1 := by
            rw [gatewayCalls_append, gatewayCalls_append, gatewayCalls_map_exec]
            simp [gatewayCalls, Event.isEmbedding]
          simp only [hg] at h3
          have e1 : gatewayCalls w.trace + 1 + (m - (putsOf rowid batch blobs).length) / 100 =
              gatewayCalls w.trace + m / 100 := by omega
          have e2 : (m - (putsOf rowid batch blobs).length) % 100 = m % 100 := by omega
          rw [e1, e2] at h3
          exact h3
    · -- the loop is over
      have h0 : total - i = 0 := by omega
      refine ⟨w, [], [], ?_, by simp, rfl, rfl, rfl, by simp, rfl, by simp [gatewayCalls, h0],
        by simp [h0], ?_, fun _ => rfl, by simp⟩
      · unfold batchLoop
        simp [hi]
      · rw [List.drop_eq_nil_of_le (by omega)]
        rfl

theorem rowLoop_lengths (idx : String → Option Nat) (records : List (List String)) :
    ∀ (fpr : Int) (st : Ingest), st.courses.length = st.lines.length →
      (rowLoop idx records fpr st).courses.length = (rowLoop idx records fpr st).lines.length := by
  induction records with
  | nil =>
    intro fpr st h
    simpa [rowLoop] using h
  | cons record rest ih =>
    intro fpr st h
    unfold rowLoop
    split
    · exact h
    · split
      · exact ih _ _ (by simp [h])
      · exact ih _ _ h

/-- C10. Let the gateway answer every call with one vector per input, and let no
serialisation and no insert fail. Then `load_csv` returns, and with n the number of lines
it rendered it made exactly n puts, in this order: the k-th put has the id k and the k-th
rendered line, and its blob is the serialised vector the gateway returned for that line
(input number (k-1) mod 100 of gateway call number (k-1) div 100). The gateway is called
once per batch of 100 lines, and not at all when n = 0. -/
theorem load_csv_serial_ids (env : Env)
    (hgate : ∀ t req, ∃ data, env.CreateEmbeddings t req = .ok data ∧
      data.length = req.Input.length)
    (hser : ∀ v, ∃ b, env.SerializeFloat32 v = .ok b)
    (hexec : ∀ t i p b, env.execError t i p b = none)
    (w : World) (header : List String) (records : List (List String)) :
    ∃ puts : List Row,
      (load_csv env (some (header :: records)) w).returned = true ∧
      (load_csv env (some (header :: records)) w).world.rows = w.rows ++ puts ∧
      execRows (load_csv env (some (header :: records)) w).world.trace =
        execRows w.trace ++ puts ∧
      puts.map Row.id = List.range' 1 (renderedLines w header records).length ∧
      puts.map Row.plain = renderedLines w header records ∧
      (∀ (k : Nat) (r : Row), puts[k]? = some r →
        EmbeddedBy env (load_csv env (some (header :: records)) w).world.trace
          (gatewayCalls w.trace + k / 100) (k % 100) r.plain r.embedding) ∧
      gatewayCalls (load_csv env (some (header :: records)) w).world.trace =
        gatewayCalls w.trace + ((renderedLines w header records).length + 99) / 100 ∧
      (renderedLines w header records = [] →
        (load_csv env (some (header :: records)) w).world.trace = w.trace) := by
  have hlen := rowLoop_lengths (headerIndex header) records (nextFieldsPerRecord 0 header)
    { courses := [], lines := [], instructorMap := w.instructorMap,
      subjectMap := w.subjectMap } rfl
  generalize hst : rowLoop (headerIndex header) records (nextFieldsPerRecord 0 header)
    { courses := [], lines := [], instructorMap := w.instructorMap,
      subjectMap := w.subjectMap } = st at hlen
  have hlines : renderedLines w header records = st.lines := by
    rw [renderedLines, hst]
  obtain ⟨w1, puts, evs, hrun, hrows, -, -, -, htrace, hexecs, hcalls, hids, hplains, hnil,
      hemb⟩ :=
    batchLoop_spec env hgate hser hexec st.lines st.courses.length hlen.symm
      st.courses.length 0 1
      { w with instructorMap := st.instructorMap, subjectMap := st.subjectMap,
               stdout := w.stdout ++
                 ["Loading " ++ toString st.courses.length ++ " courses into database...\n"] }
      (by omega)
  have hload : load_csv env (some (header :: records)) w =
      .ok () { w1 with stdout := w1.stdout ++ ["Database loaded successfully!\n"] } := by
    unfold load_csv
    simp only [hst, hrun]
  rw [hload, hlines]
  simp only [Nat.sub_zero, List.drop_zero] at hids hplains hcalls hnil
  refine ⟨puts, rfl, by simpa [Res.world] using hrows, ?_, by rw [hids, hlen], hplains, ?_,
    ?_, ?_⟩
  · simp only [Res.world, htrace, execRows_append, hexecs]
  · intro k r hk
    simpa [Res.world] using hemb k r hk
  · simp only [Res.world, htrace, gatewayCalls_append, hcalls, hlen]
  · intro h0
    have : st.courses.length ≤ 0 := by rw [hlen, h0]; simp
    simp [Res.world, htrace, hnil this]

theorem load_csv_serial_ids_witness :
    ∃ puts : List Row,
      (load_csv envTwoQuestions (some sampleFile) (newWorld [])).returned = true ∧
      (load_csv envTwoQuestions (some sampleFile) (newWorld [])).world.rows =
        (newWorld []).rows ++ puts ∧
      execRows (load_csv envTwoQuestions (some sampleFile) (newWorld [])).world.trace =
        execRows (newWorld []).trace ++ puts ∧
      puts.map Row.id = List.range' 1
        (renderedLines (newWorld []) sampleHeader
          (recordCS272 :: recordCS315 :: List.replicate 199 recordCS272)).length ∧
      puts.map Row.plain = renderedLines (newWorld []) sampleHeader
        (recordCS272 :: recordCS315 :: List.replicate 199 recordCS272) ∧
      (∀ (k : Nat) (r : Row), puts[k]? = some r →
        EmbeddedBy envTwoQuestions
          (load_csv envTwoQuestions (some sampleFile) (newWorld [])).world.trace
          (gatewayCalls (newWorld []).trace + k / 100) (k % 100) r.plain r.embedding) ∧
      gatewayCalls (load_csv envTwoQuestions (some sampleFile) (newWorld [])).world.trace =
        gatewayCalls (newWorld []).trace +
          ((renderedLines (newWorld []) sampleHeader
            (recordCS272 :: recordCS315 :: List.replicate 199 recordCS272)).length + 99) / 100 ∧
      (renderedLines (newWorld []) sampleHeader
          (recordCS272 :: recordCS315 :: List.replicate 199 recordCS272) = [] →
        (load_csv envTwoQuestions (some sampleFile) (newWorld [])).world.trace =
          (newWorld []).trace) :=
  load_csv_serial_ids envTwoQuestions
    (fun _ req => ⟨req.Input.map sampleEmbedding, rfl, List.length_map _ _⟩)
    (fun _ => ⟨_, rfl⟩) (fun _ _ _ _ => rfl) (newWorld []) sampleHeader
    (recordCS272 :: recordCS315 :: List.replicate 199 recordCS272)

/-! ## Failing outside calls -/

theorem CreateBlob_fatal (env : Env) (w : World) (input : BlobInput) (e : String)
    (hemb : env.CreateEmbeddings w.trace { Input := input.inputs, Model := LargeEmbedding3 } =
      .error e) :
    CreateBlob env w input =
      .fatal e { w with trace := w.trace ++
        [Event.embeddings { Input := input.inputs, Model := LargeEmbedding3 }] } := by
  unfold CreateBlob
  simp only [hemb]

theorem executeTool_fatal (env : Env) (w : World) (tc : ToolCall)
    (args : Option (List (String × Json))) (q e : String)
    (hparse : jsonUnmarshalMap tc.Function.Arguments = .ok args)
    (hquery : mapIndex args "query" = some (.str q))
    (hemb : env.CreateEmbeddings w.trace { Input := [q], Model := LargeEmbedding3 } = .error e) :
    executeTool env w tc =
      .fatal e { w with trace := w.trace ++
        [Event.embeddings { Input := [q], Model := LargeEmbedding3 }] } := by
  have hblob := CreateBlob_fatal env w (.str q) e hemb
  unfold executeTool
  simp only [hparse, hquery, Query, hblob, BlobInput.inputs]

theorem Chat_tool_fatal (env : Env) (w : World) (question : String)
    (resp : ChatCompletionResponse) (choice : ChatCompletionChoice)
    (rest : List ChatCompletionChoice) (e : String) (w4 : World)
    (hresp : env.CreateChatCompletion w.trace
      (chatRequest (w.dialogue ++ [userMessage question])) = .ok resp)
    (hchoice : resp.Choices = choice :: rest)
    (htools : choice.Message.ToolCalls ≠ [])
    (hrun : runTools env (afterFirstCall w question choice.Message)
      choice.Message.ToolCalls = .fatal e w4) :
    Chat env w question = .fatal e w4 := by
  have hlen : ¬ choice.Message.ToolCalls.length = 0 := by
    rw [List.length_eq_zero]; exact htools
  have hrun1 : runTools env
      { rows := w.rows, dialogue := w.dialogue ++ [userMessage question] ++ [choice.Message],
        instructorMap := w.instructorMap, subjectMap := w.subjectMap, stdout := w.stdout,
        trace := w.trace ++
          [Event.chatCompletion (chatRequest (w.dialogue ++ [userMessage question]))] }
      choice.Message.ToolCalls = .fatal e w4 := by
    rw [← hrun]; simp [afterFirstCall]
  unfold Chat
  simp only [hresp, hchoice, hlen, if_false, hrun1]

theorem Chat_first_call_fatal (env : Env) (w : World) (question : String) (e : String)
    (hresp : env.CreateChatCompletion w.trace
      (chatRequest (w.dialogue ++ [userMessage question])) = .error e) :
    Chat env w question =
      .fatal e { w with
        dialogue := w.dialogue ++ [userMessage question],
        trace := w.trace ++
          [Event.chatCompletion (chatRequest (w.dialogue ++ [userMessage question]))] } := by
  unfold Chat
  simp only [hresp]

theorem Chat_follow_up_fatal (env : Env) (w : World) (question : String)
    (resp : ChatCompletionResponse) (choice : ChatCompletionChoice)
    (rest : List ChatCompletionChoice) (w4 : World) (e : String)
    (hresp : env.CreateChatCompletion w.trace
      (chatRequest (w.dialogue ++ [userMessage question])) = .ok resp)
    (hchoice : resp.Choices = choice :: rest)
    (htools : choice.Message.ToolCalls ≠ [])
    (hrun : runTools env (afterFirstCall w question choice.Message)
      choice.Message.ToolCalls = .ok () w4)
    (hresp2 : env.CreateChatCompletion w4.trace (chatRequest w4.dialogue) = .error e) :
    Chat env w question =
      .fatal e { w4 with
        trace := w4.trace ++ [Event.chatCompletion (chatRequest w4.dialogue)] } := by
  have hlen : ¬ choice.Message.ToolCalls.length = 0 := by
    rw [List.length_eq_zero]; exact htools
  have hrun1 : runTools env
      { rows := w.rows, dialogue := w.dialogue ++ [userMessage question] ++ [choice.Message],
        instructorMap := w.instructorMap, subjectMap := w.subjectMap, stdout := w.stdout,
        trace := w.trace ++
          [Event.chatCompletion (chatRequest (w.dialogue ++ [userMessage question]))] }
      choice.Message.ToolCalls = .ok () w4 := by
    rw [← hrun]; simp [afterFirstCall]
  unfold Chat
  simp only [hresp, hchoice, hlen, if_false, hrun1, hresp2]

/-- C11, amended. A failing outside call made while answering a question is not swallowed,
but it is not returned to the caller of `Chat` either: `Chat` ends in `log.Fatal` with the
error of that call, which terminates the process, so `Chat` does not return. This holds
for the first model call, for the follow-up model call after a completed tool loop, and
for the embedding call of the retrieval an invocation triggers (the invocations before it
were executed). -/
theorem Chat_outside_failure_is_fatal (env : Env) (w : World) (question : String) :
    (∀ e, env.CreateChatCompletion w.trace
        (chatRequest (w.dialogue ++ [userMessage question])) = .error e →
      Chat env w question =
        .fatal e { w with
          dialogue := w.dialogue ++ [userMessage question],
          trace := w.trace ++
            [Event.chatCompletion (chatRequest (w.dialogue ++ [userMessage question]))] } ∧
      (Chat env w question).returned = false) ∧
    (∀ resp choice rest w4 e,
      env.CreateChatCompletion w.trace
        (chatRequest (w.dialogue ++ [userMessage question])) = .ok resp →
      resp.Choices = choice :: rest →
      choice.Message.ToolCalls ≠ [] →
      runTools env (afterFirstCall w question choice.Message) choice.Message.ToolCalls =
        .ok () w4 →
      env.CreateChatCompletion w4.trace (chatRequest w4.dialogue) = .error e →
      Chat env w question =
        .fatal e { w4 with
          trace := w4.trace ++ [Event.chatCompletion (chatRequest w4.dialogue)] } ∧
      (Chat env w question).returned = false) ∧
    (∀ resp choice rest pre tc post wA args q e,
      env.CreateChatCompletion w.trace
        (chatRequest (w.dialogue ++ [userMessage question])) = .ok resp →
      resp.Choices = choice :: rest →
      choice.Message.ToolCalls = pre ++ tc :: post →
      runTools env (afterFirstCall w question choice.Message) pre = .ok () wA →
      jsonUnmarshalMap tc.Function.Arguments = .ok args →
      mapIndex args "query" = some (.str q) →
      env.CreateEmbeddings wA.trace { Input := [q], Model := LargeEmbedding3 } = .error e →
      Chat env w question =
        .fatal e { wA with
          trace := wA.trace ++ [Event.embeddings { Input := [q], Model := LargeEmbedding3 }] } ∧
      (Chat env w question).returned = false) := by
  refine ⟨?_, ?_, ?_⟩
  · intro e hresp
    rw [Chat_first_call_fatal env w question e hresp]
    exact ⟨rfl, rfl⟩
  · intro resp choice rest w4 e hresp hchoice htools hrun hresp2
    rw [Chat_follow_up_fatal env w question resp choice rest w4 e hresp hchoice htools hrun
      hresp2]
    exact ⟨rfl, rfl⟩
  · intro resp choice rest pre tc post wA args q e hresp hchoice hcalls hpre hparse hquery hemb
    have hrun : runTools env (afterFirstCall w question choice.Message)
        choice.Message.ToolCalls =
          .fatal e { wA with
            trace := wA.trace ++
              [Event.embeddings { Input := [q], Model := LargeEmbedding3 }] } := by
      rw [hcalls, runTools_append env pre (tc :: post) _ wA () hpre]
      unfold runTools
      rw [executeTool_fatal env wA tc args q e hparse hquery hemb]
    have htools : choice.Message.ToolCalls ≠ [] := by
      rw [hcalls]; simp
    rw [Chat_tool_fatal env w question resp choice rest e _ hresp hchoice htools hrun]
    exact ⟨rfl, rfl⟩

theorem Chat_outside_failure_is_fatal_witness :
    (Chat envModelDown sampleWorld sampleQuestion).returned = false ∧
    (Chat envFollowUpDown sampleWorld sampleQuestion =
      .fatal "no more responses"
        { (runTools envFollowUpDown
            (afterFirstCall sampleWorld sampleQuestion (toolCallMessage [goodCall]))
            [goodCall]).world with
          trace :=
            (runTools envFollowUpDown
              (afterFirstCall sampleWorld sampleQuestion (toolCallMessage [goodCall]))
              [goodCall]).world.trace ++
            [Event.chatCompletion (chatRequest
              (runTools envFollowUpDown
                (afterFirstCall sampleWorld sampleQuestion (toolCallMessage [goodCall]))
                [goodCall]).world.dialogue)] } ∧
      (Chat envFollowUpDown sampleWorld sampleQuestion).returned = false) ∧
    (Chat envEmbeddingDown sampleWorld sampleQuestion =
      .fatal "error, status code: 429, message: rate limit reached"
        { afterFirstCall sampleWorld sampleQuestion (toolCallMessage [goodCall]) with
          trace :=
            (afterFirstCall sampleWorld sampleQuestion (toolCallMessage [goodCall])).trace ++
              [Event.embeddings { Input := ["Philip Peterson"], Model := LargeEmbedding3 }] } ∧
      (Chat envEmbeddingDown sampleWorld sampleQuestion).returned = false) :=
  ⟨((Chat_outside_failure_is_fatal envModelDown sampleWorld sampleQuestion).1
      "Post \"https://api.openai.com/v1/chat/completions\": connection refused" rfl).2,
    (Chat_outside_failure_is_fatal envFollowUpDown sampleWorld sampleQuestion).2.1
      (response (toolCallMessage [goodCall]) 31) { Message := toolCallMessage [goodCall] } []
      (runTools envFollowUpDown
        (afterFirstCall sampleWorld sampleQuestion (toolCallMessage [goodCall]))
        [goodCall]).world
      "no more responses" rfl rfl (by decide) rfl rfl,
    (Chat_outside_failure_is_fatal envEmbeddingDown sampleWorld sampleQuestion).2.2
      (response (toolCallMessage [goodCall]) 31) { Message := toolCallMessage [goodCall] } []
      [] goodCall [] (afterFirstCall sampleWorld sampleQuestion (toolCallMessage [goodCall]))
      (some [("query", Json.str "Philip Peterson")]) "Philip Peterson"
      "error, status code: 429, message: rate limit reached" rfl rfl rfl rfl rfl rfl rfl⟩

/-- C11 as stated fails. The first model call returns an error: `Chat` ends in `log.Fatal`
with that error, the process terminates, and nothing is returned to the caller. The same
happens when the follow-up model call or the embedding call of a retrieval fails. -/
theorem Chat_model_down_terminates :
    Chat envModelDown sampleWorld sampleQuestion =
      .fatal "Post \"https://api.openai.com/v1/chat/completions\": connection refused"
        { sampleWorld with
          dialogue := sampleWorld.dialogue ++ [userMessage sampleQuestion],
          trace := [Event.chatCompletion
            (chatRequest (sampleWorld.dialogue ++ [userMessage sampleQuestion]))] } ∧
    (Chat envModelDown sampleWorld sampleQuestion).returned = false ∧
    (Chat envFollowUpDown sampleWorld sampleQuestion).returned = false ∧
    modelCalls (Chat envFollowUpDown sampleWorld sampleQuestion).world.trace = 2 ∧
    (Chat envEmbeddingDown sampleWorld sampleQuestion).returned = false ∧
    modelCalls (Chat envEmbeddingDown sampleWorld sampleQuestion).world.trace = 1 :=
  ⟨rfl, rfl, rfl, rfl, rfl, rfl⟩

/-! ## The instructor name -/

/-- The row loop on records that all have the field count the reader expects: the records
that pass the check are turned into courses and lines, in order. -/
theorem rowLoop_all_counted (idx : String → Option Nat) (n : Nat) (hn : 0 < n)
    (records : List (List String)) :
    ∀ (st : Ingest), (∀ r ∈ records, r.length = n) →
      rowLoop idx records (n : Int) st =
        { courses := st.courses ++ (records.filter (rowOk idx)).map (mkCourse idx),
          lines := st.lines ++
            (records.filter (rowOk idx)).map (fun r => renderLine (mkCourse idx r)),
          instructorMap := ((records.filter (rowOk idx)).map (mkCourse idx)).foldl
            (fun m c => mapAppend m c.Instructor c) st.instructorMap,
          subjectMap := ((records.filter (rowOk idx)).map (mkCourse idx)).foldl
            (fun m c => mapAppend m c.Subj c) st.subjectMap } := by
  induction records with
  | nil =>
    intro st _
    simp [rowLoop]
  | cons r rest ih =>
    intro st hall
    have hr : r.length = n := hall r (List.mem_cons_self _ _)
    have hrest : ∀ x ∈ rest, x.length = n := fun x hx => hall x (List.mem_cons_of_mem _ hx)
    have herr : readError (n : Int) r = none := by
      unfold readError
      rw [if_neg]
      rw [hr]
      simp
    have hnext : nextFieldsPerRecord (n : Int) r = (n : Int) := by
      unfold nextFieldsPerRecord
      rw [if_neg]
      exact_mod_cast (Nat.pos_iff_ne_zero.1 hn)
    unfold rowLoop
    simp only [herr, hnext]
    by_cases hok : rowOk idx r = true
    · rw [if_pos hok, ih _ hrest]
      simp [List.filter_cons, hok]
    · rw [if_neg hok, ih _ hrest]
      simp [List.filter_cons, hok]

theorem mapAppend_mem (m : List (String × List Course)) (k : String) (c : Course) :
    ∃ cs, (k, cs) ∈ mapAppend m k c ∧ c ∈ cs := by
  unfold mapAppend
  split
  · rename_i hany
    rw [List.any_eq_true] at hany
    obtain ⟨e, he, hk⟩ := hany
    have hk1 : e.1 = k := by simpa using hk
    refine ⟨e.2 ++ [c], ?_, by simp⟩
    rw [List.mem_map]
    exact ⟨e, he, by simp [hk1]⟩
  · exact ⟨[c], by simp, by simp⟩

theorem mapAppend_keeps (m : List (String × List Course)) (k : String) (c : Course)
    (k1 : String) (c1 : Course) (h : ∃ cs, (k1, cs) ∈ m ∧ c1 ∈ cs) :
    ∃ cs, (k1, cs) ∈ mapAppend m k c ∧ c1 ∈ cs := by
  obtain ⟨cs, hmem, hc⟩ := h
  unfold mapAppend
  split
  · by_cases hk : k1 = k
    · refine ⟨cs ++ [c], ?_, by simp [hc]⟩
      rw [List.mem_map]
      exact ⟨(k1, cs), hmem, by simp [hk]⟩
    · refine ⟨cs, ?_, hc⟩
      rw [List.mem_map]
      exact ⟨(k1, cs), hmem, by simp [hk]⟩
  · exact ⟨cs, by simp [hmem], hc⟩

theorem foldl_mapAppend_mem (key : Course → String) (courses : List Course) :
    ∀ (m : List (String × List Course)) (c : Course),
      (c ∈ courses ∨ ∃ cs, (key c, cs) ∈ m ∧ c ∈ cs) →
      ∃ cs, (key c, cs) ∈ courses.foldl (fun m x => mapAppend m (key x) x) m ∧ c ∈ cs := by
  induction courses with
  | nil =>
    intro m c h
    rcases h with h | h
    · simp at h
    · simpa using h
  | cons x rest ih =>
    intro m c h
    rw [List.foldl_cons]
    apply ih
    rcases h with h | h
    · rcases List.mem_cons.1 h with h | h
      · right
        rw [h]
        exact mapAppend_mem m (key x) x
      · left
        exact h
    · right
      exact mapAppend_keeps m (key x) x (key c) c h

theorem rowOk_field (idx : String → Option Nat) (record : List String) (k : String)
    (hok : rowOk idx record = true) (hk : k ∈ required) :
    ∃ i : Nat, idx k = some i ∧ record[i]? = some (field idx record k) := by
  unfold rowOk at hok
  rw [List.all_eq_true] at hok
  have h := hok k hk
  cases hidx : idx k with
  | none => simp [hidx] at h
  | some i =>
    simp only [hidx, decide_eq_true_eq] at h
    refine ⟨i, rfl, ?_⟩
    simp [field, hidx, List.getD_eq_getElem?_getD, List.getElem?_eq_getElem h]

theorem rowLoop_append_counted (idx : String → Option Nat) (n : Nat) (hn : 0 < n)
    (pre rest : List (List String)) (hpre : ∀ r ∈ pre, r.length = n) (st : Ingest) :
    rowLoop idx (pre ++ rest) (n : Int) st =
      rowLoop idx rest (n : Int) (rowLoop idx pre (n : Int) st) := by
  induction pre generalizing st with
  | nil => simp [rowLoop]
  | cons r more ih =>
    have hr : r.length = n := hpre r (List.mem_cons_self _ _)
    have hmore : ∀ x ∈ more, x.length = n := fun x hx => hpre x (List.mem_cons_of_mem _ hx)
    have herr : readError (n : Int) r = none := by
      unfold readError
      rw [if_neg]
      rw [hr]
      simp
    have hnext : nextFieldsPerRecord (n : Int) r = (n : Int) := by
      unfold nextFieldsPerRecord
      rw [if_neg]
      exact_mod_cast (Nat.pos_iff_ne_zero.1 hn)
    rw [List.cons_append]
    simp only [rowLoop, herr, hnext]
    split
    · exact ih hmore _
    · exact ih hmore _

/-- The row loop only adds: courses, lines and the entries of the instructor map that are
there stay there, whatever the remaining records are. -/
theorem rowLoop_keeps (idx : String → Option Nat) (records : List (List String)) :
    ∀ (fpr : Int) (st : Ingest),
      (∀ c ∈ st.courses, c ∈ (rowLoop idx records fpr st).courses) ∧
      (∀ l ∈ st.lines, l ∈ (rowLoop idx records fpr st).lines) ∧
      (∀ k c, (∃ cs, (k, cs) ∈ st.instructorMap ∧ c ∈ cs) →
        ∃ cs, (k, cs) ∈ (rowLoop idx records fpr st).instructorMap ∧ c ∈ cs) := by
  induction records with
  | nil =>
    intro fpr st
    simp [rowLoop]
  | cons r rest ih =>
    intro fpr st
    unfold rowLoop
    split
    · exact ⟨fun _ h => h, fun _ h => h, fun _ _ h => h⟩
    · split
      · obtain ⟨h1, h2, h3⟩ := ih (nextFieldsPerRecord fpr r)
          { courses := st.courses ++ [mkCourse idx r],
            lines := st.lines ++ [renderLine (mkCourse idx r)],
            instructorMap := mapAppend st.instructorMap (mkCourse idx r).Instructor
              (mkCourse idx r),
            subjectMap := mapAppend st.subjectMap (mkCourse idx r).Subj (mkCourse idx r) }
        refine ⟨fun c hc => h1 c (List.mem_append_left _ hc),
          fun l hl => h2 l (List.mem_append_left _ hl), fun k c hkc => h3 k c ?_⟩
        exact mapAppend_keeps _ _ _ k c hkc
      · exact ih _ st

/-- The iteration of the row loop on a record that is read without error and passes the
check: its course and line are added, and the course is filed under its instructor. -/
theorem rowLoop_valid_record (idx : String → Option Nat) (n : Nat) (hn : 0 < n)
    (record : List String) (post : List (List String)) (st : Ingest)
    (hlen : record.length = n) (hok : rowOk idx record = true) :
    mkCourse idx record ∈ (rowLoop idx (record :: post) (n : Int) st).courses ∧
    renderLine (mkCourse idx record) ∈ (rowLoop idx (record :: post) (n : Int) st).lines ∧
    ∃ cs, ((mkCourse idx record).Instructor, cs) ∈
        (rowLoop idx (record :: post) (n : Int) st).instructorMap ∧
      mkCourse idx record ∈ cs := by
  have herr : readError (n : Int) record = none := by
    unfold readError
    rw [if_neg]
    rw [hlen]
    simp
  have hnext : nextFieldsPerRecord (n : Int) record = (n : Int) := by
    unfold nextFieldsPerRecord
    rw [if_neg]
    exact_mod_cast (Nat.pos_iff_ne_zero.1 hn)
  obtain ⟨h1, h2, h3⟩ := rowLoop_keeps idx post (n : Int)
    { courses := st.courses ++ [mkCourse idx record],
      lines := st.lines ++ [renderLine (mkCourse idx record)],
      instructorMap := mapAppend st.instructorMap (mkCourse idx record).Instructor
        (mkCourse idx record),
      subjectMap := mapAppend st.subjectMap (mkCourse idx record).Subj (mkCourse idx record) }
  unfold rowLoop
  simp only [herr, hnext, hok, if_true]
  exact ⟨h1 _ (by simp), h2 _ (by simp), h3 _ _ (mapAppend_mem _ _ _)⟩

theorem InsertBlob_maps (env : Env) (w : World) (rowid : Nat) (p : String) (b : Blob) :
    (InsertBlob env w rowid p b).world.instructorMap = w.instructorMap ∧
    (InsertBlob env w rowid p b).world.subjectMap = w.subjectMap := by
  unfold InsertBlob
  simp only []
  split <;> simp [Res.world]

theorem insertLoop_maps (env : Env) (batch : List String) (blobs : List Blob) :
    ∀ (j rowid : Nat) (w : World),
      (insertLoop env batch blobs j rowid w).world.instructorMap = w.instructorMap ∧
      (insertLoop env batch blobs j rowid w).world.subjectMap = w.subjectMap := by
  induction blobs with
  | nil =>
    intro j rowid w
    simp [insertLoop, Res.world]
  | cons blob rest ih =>
    intro j rowid w
    unfold insertLoop
    split
    · simp [Res.world]
    · rename_i line hline
      have hins := InsertBlob_maps env w rowid line blob
      split
      · rename_i m w1 h
        rw [h] at hins
        exact hins
      · rename_i m w1 h
        rw [h] at hins
        exact hins
      · rename_i u w1 h
        rw [h] at hins
        simp only [Res.world] at hins
        obtain ⟨h1, h2⟩ := ih (j + 1) (rowid + 1) w1
        rw [h1, h2]
        exact hins

theorem batchLoop_maps (env : Env) (lines : List String) (total : Nat) :
    ∀ (fuel i rowid : Nat) (w : World),
      (batchLoop env lines total fuel i rowid w).world.instructorMap = w.instructorMap ∧
      (batchLoop env lines total fuel i rowid w).world.subjectMap = w.subjectMap := by
  intro fuel
  induction fuel with
  | zero =>
    intro i rowid w
    simp [batchLoop, Res.world]
  | succ fuel ih =>
    intro i rowid w
    unfold batchLoop
    split
    · simp only []
      obtain ⟨req, hreq⟩ := CreateBlob_world env w
        (.strs ((lines.drop i).take ((if i + batchSize > total then total else i + batchSize) - i)))
      split
      · rename_i m w1 h
        rw [h] at hreq
        simp only [Res.world] at hreq ⊢
        simp [hreq]
      · rename_i m w1 h
        rw [h] at hreq
        simp only [Res.world] at hreq ⊢
        simp [hreq]
      · rename_i blobs w1 h
        rw [h] at hreq
        simp only [Res.world] at hreq
        have hins := insertLoop_maps env
          ((lines.drop i).take ((if i + batchSize > total then total else i + batchSize) - i))
          blobs 0 rowid w1
        split
        · rename_i m w2 h2
          rw [h2] at hins
          simp only [Res.world] at hins ⊢
          simp [hins, hreq]
        · rename_i m w2 h2
          rw [h2] at hins
          simp only [Res.world] at hins ⊢
          simp [hins, hreq]
        · rename_i rowid1 w2 h2
          rw [h2] at hins
          simp only [Res.world] at hins
          obtain ⟨h3, h4⟩ := ih (i + batchSize) rowid1
            { w2 with stdout := w2.stdout ++
              [progressLine (if i + batchSize > total then total else i + batchSize) total] }
          rw [h3, h4]
          simp [hins, hreq]
    · simp [Res.world]

/-- The maps `load_csv` leaves in the world are the ones its row loop built, however the
loading of the batches ends. -/
theorem load_csv_maps (env : Env) (w : World) (header : List String)
    (records : List (List String)) :
    (load_csv env (some (header :: records)) w).world.instructorMap =
      (ingested w header records).instructorMap ∧
    (load_csv env (some (header :: records)) w).world.subjectMap =
      (ingested w header records).subjectMap := by
  unfold load_csv ingested
  simp only []
  generalize rowLoop (headerIndex header) records (nextFieldsPerRecord 0 header)
    { courses := [], lines := [], instructorMap := w.instructorMap,
      subjectMap := w.subjectMap } = st
  obtain ⟨h1, h2⟩ := batchLoop_maps env st.lines st.courses.length st.courses.length 0 1
    { w with instructorMap := st.instructorMap, subjectMap := st.subjectMap,
             stdout := w.stdout ++
               ["Loading " ++ toString st.courses.length ++ " courses into database...\n"] }
  split
  · rename_i m w2 h
    rw [h] at h1 h2
    exact ⟨h1, h2⟩
  · rename_i m w2 h
    rw [h] at h1 h2
    exact ⟨h1, h2⟩
  · rename_i u w2 h
    rw [h] at h1 h2
    exact ⟨h1, h2⟩

/-- C12, amended. For every record of the file that is read (the records before it and the
record itself have as many fields as the header) and passes the check, with `first` and
`last` its raw values in the columns of the instructor's first and last name: the
instructor name of its course record is `TrimSpace(TrimSpace(first) + " " +
TrimSpace(last))`, each value trimmed before the two are joined. `load_csv` files the course
under that name in the instructor map and renders that name after the label `Instructor:`
of the line. The name is the trimmed `first + " " + last` when neither value has white
space around it. -/
theorem load_csv_instructor_name (env : Env) (w : World) (header : List String)
    (pre : List (List String)) (record : List String) (post : List (List String))
    (hheader : header ≠ [])
    (hpre : ∀ r ∈ pre, r.length = header.length)
    (hlen : record.length = header.length)
    (hok : rowOk (headerIndex header) record = true) :
    ∃ (i j : Nat) (first last : String),
      headerIndex header "Primary Instructor First Name" = some i ∧
      record[i]? = some first ∧
      headerIndex header "Primary Instructor Last Name" = some j ∧
      record[j]? = some last ∧
      (mkCourse (headerIndex header) record).Instructor =
        TrimSpace (TrimSpace first ++ " " ++ TrimSpace last) ∧
      (∃ cs, (TrimSpace (TrimSpace first ++ " " ++ TrimSpace last), cs) ∈
          (load_csv env (some (header :: (pre ++ record :: post))) w).world.instructorMap ∧
        mkCourse (headerIndex header) record ∈ cs) ∧
      renderLine (mkCourse (headerIndex header) record) ∈
        renderedLines w header (pre ++ record :: post) ∧
      renderLine (mkCourse (headerIndex header) record) =
        "SUBJ:" ++ (mkCourse (headerIndex header) record).Subj ++
        " Number:" ++ (mkCourse (headerIndex header) record).Number ++
        " Section:" ++ (mkCourse (headerIndex header) record).Section ++
        " Title:" ++ (mkCourse (headerIndex header) record).Title ++
        " Instructor:" ++ TrimSpace (TrimSpace first ++ " " ++ TrimSpace last) ++
        " Email:" ++ (mkCourse (headerIndex header) record).Email ++
        " Days:" ++ (mkCourse (headerIndex header) record).Days ++
        " Time:" ++ (mkCourse (headerIndex header) record).StartTime ++
        "-" ++ (mkCourse (headerIndex header) record).EndTime ++
        " Building:" ++ (mkCourse (headerIndex header) record).Building ++
        " Room:" ++ (mkCourse (headerIndex header) record).Room ∧
      (TrimSpace first = first → TrimSpace last = last →
        (mkCourse (headerIndex header) record).Instructor =
          TrimSpace (first ++ " " ++ last)) := by
  obtain ⟨i, hi, hfirst⟩ := rowOk_field (headerIndex header) record
    "Primary Instructor First Name" hok (by simp [required])
  obtain ⟨j, hj, hlast⟩ := rowOk_field (headerIndex header) record
    "Primary Instructor Last Name" hok (by simp [required])
  have hn : 0 < header.length := List.length_pos.2 hheader
  have hfpr : nextFieldsPerRecord 0 header = (header.length : Int) := by
    simp [nextFieldsPerRecord]
  have hing : ingested w header (pre ++ record :: post) =
      rowLoop (headerIndex header) (record :: post) (header.length : Int)
        (rowLoop (headerIndex header) pre (header.length : Int)
          { courses := [], lines := [], instructorMap := w.instructorMap,
            subjectMap := w.subjectMap }) := by
    unfold ingested
    rw [hfpr, rowLoop_append_counted (headerIndex header) header.length hn pre _ hpre]
  obtain ⟨-, hline, hmap⟩ := rowLoop_valid_record (headerIndex header) header.length hn record
    post (rowLoop (headerIndex header) pre (header.length : Int)
      { courses := [], lines := [], instructorMap := w.instructorMap,
        subjectMap := w.subjectMap }) hlen hok
  rw [← hing] at hline hmap
  have hinstr : (mkCourse (headerIndex header) record).Instructor =
      TrimSpace (TrimSpace (field (headerIndex header) record "Primary Instructor First Name")
        ++ " " ++
        TrimSpace (field (headerIndex header) record "Primary Instructor Last Name")) := rfl
  refine ⟨i, j, _, _, hi, hfirst, hj, hlast, hinstr, ?_, hline, ?_, ?_⟩
  · rw [(load_csv_maps env w header (pre ++ record :: post)).1, ← hinstr]
    exact hmap
  · rw [← hinstr]
    rfl
  · intro h1 h2
    rw [hinstr, h1, h2]

theorem load_csv_instructor_name_witness :
    rowOk (headerIndex sampleHeader) recordPadded = true ∧
    ∃ (i j : Nat) (first last : String),
      headerIndex sampleHeader "Primary Instructor First Name" = some i ∧
      recordPadded[i]? = some first ∧
      headerIndex sampleHeader "Primary Instructor Last Name" = some j ∧
      recordPadded[j]? = some last ∧
      (mkCourse (headerIndex sampleHeader) recordPadded).Instructor =
        TrimSpace (TrimSpace first ++ " " ++ TrimSpace last) ∧
      (∃ cs, (TrimSpace (TrimSpace first ++ " " ++ TrimSpace last), cs) ∈
          (load_csv envTwoQuestions
            (some (sampleHeader :: ([recordCS315] ++ recordPadded :: [recordCS272])))
            (newWorld [])).world.instructorMap ∧
        mkCourse (headerIndex sampleHeader) recordPadded ∈ cs) ∧
      renderLine (mkCourse (headerIndex sampleHeader) recordPadded) ∈
        renderedLines (newWorld []) sampleHeader ([recordCS315] ++ recordPadded :: [recordCS272]) ∧
      renderLine (mkCourse (headerIndex sampleHeader) recordPadded) =
        "SUBJ:" ++ (mkCourse (headerIndex sampleHeader) recordPadded).Subj ++
        " Number:" ++ (mkCourse (headerIndex sampleHeader) recordPadded).Number ++
        " Section:" ++ (mkCourse (headerIndex sampleHeader) recordPadded).Section ++
        " Title:" ++ (mkCourse (headerIndex sampleHeader) recordPadded).Title ++
        " Instructor:" ++ TrimSpace (TrimSpace first ++ " " ++ TrimSpace last) ++
        " Email:" ++ (mkCourse (headerIndex sampleHeader) recordPadded).Email ++
        " Days:" ++ (mkCourse (headerIndex sampleHeader) recordPadded).Days ++
        " Time:" ++ (mkCourse (headerIndex sampleHeader) recordPadded).StartTime ++
        "-" ++ (mkCourse (headerIndex sampleHeader) recordPadded).EndTime ++
        " Building:" ++ (mkCourse (headerIndex sampleHeader) recordPadded).Building ++
        " Room:" ++ (mkCourse (headerIndex sampleHeader) recordPadded).Room ∧
      (TrimSpace first = first → TrimSpace last = last →
        (mkCourse (headerIndex sampleHeader) recordPadded).Instructor =
          TrimSpace (first ++ " " ++ last)) :=
  ⟨by decide,
    load_csv_instructor_name envTwoQuestions (newWorld []) sampleHeader [recordCS315]
      recordPadded [recordCS272] (by decide) (by decide) (by decide) (by decide)⟩

/-- C12 as stated fails. The record is valid, its raw first name is "Philip " (with a
blank at the end) and its raw last name is "Peterson": `load_csv` stores and renders the
instructor name "Philip Peterson", while the trimmed `first + " " + last` is
"Philip  Peterson", with two blanks. -/
theorem load_csv_trims_each_name_part :
    rowOk (headerIndex sampleHeader) recordPadded = true ∧
    headerIndex sampleHeader "Primary Instructor First Name" = some 4 ∧
    recordPadded[4]? = some "Philip " ∧
    headerIndex sampleHeader "Primary Instructor Last Name" = some 5 ∧
    recordPadded[5]? = some "Peterson" ∧
    (load_csv envTwoQuestions (some [sampleHeader, recordPadded])
      (newWorld [])).world.instructorMap =
        [("Philip Peterson", [mkCourse (headerIndex sampleHeader) recordPadded])] ∧
    (mkCourse (headerIndex sampleHeader) recordPadded).Instructor = "Philip Peterson" ∧
    (load_csv envTwoQuestions (some [sampleHeader, recordPadded])
      (newWorld [])).world.rows.map Row.plain =
        ["SUBJ:CS Number:272 Section:01 Title:Software Development Instructor:Philip Peterson Email:phpeterson@usfca.edu Days:TR Time:09:55-11:40 Building:HR Room:148"] ∧
    TrimSpace ("Philip " ++ " " ++ "Peterson") = "Philip  Peterson" ∧
    (mkCourse (headerIndex sampleHeader) recordPadded).Instructor ≠
      TrimSpace ("Philip " ++ " " ++ "Peterson") :=
  ⟨rfl, rfl, rfl, rfl, rfl, rfl, rfl, rfl, rfl, by decide⟩

end CourseCatalog
